import Mathlib

/-!
Verification development for the epic DoD management backend.

The definitions below are a shallow embedding of the snapshot
synchronization engine (backend/jira_sync/service.py) and of the
compliance evaluator (backend/compliance/views.py).

Modelling conventions:
* Python strings are Lean `String` (a list of unicode code points); the
  string helpers below reproduce the ASCII behaviour of str.strip,
  str.lower and str.startswith used by the source.
* Optional / defensively-read attributes (getattr with a default)
  become `Option` fields; the getattr default is applied at the use
  site, exactly where the source applies it.
* Python dicts that the source builds by insertion become association
  lists that preserve insertion order; assignment to an existing key
  replaces the value in place, as in Python.
* Database time is an `Int` counting microseconds, matching the
  microsecond resolution of the datetimes used by the source.
* Fallible operations (adapter calls, unique-constraint checks on row
  creation) live in `Except SyncErr`.
-/

/-- ASCII lower-casing of one character, the behaviour of str.lower on
the ASCII range used by the source's label / type-name comparisons. -/
def lowerChar (c : Char) : Char :=
  if 65 ≤ c.toNat ∧ c.toNat ≤ 90 then Char.ofNat (c.toNat + 32) else c

/-- Strip leading and trailing whitespace from a character list. -/
def trimChars (l : List Char) : List Char :=
  ((l.dropWhile Char.isWhitespace).reverse.dropWhile Char.isWhitespace).reverse

/-- Python str.strip(). -/
def pyStrip (s : String) : String := String.mk (trimChars s.data)

/-- Python str.lower() (ASCII range). -/
def pyLower (s : String) : String := String.mk (s.data.map lowerChar)

/-- Python str.startswith. -/
def strStarts (s p : String) : Bool := p.data.isPrefixOf s.data

/-- Python slicing s[n:]. -/
def strDrop (s : String) (n : Nat) : String := String.mk (s.data.drop n)

/-- DOD_PREFIX literal of service.py. -/
def dodPfx : String := "DoD - "

/-- SQUAD_PREFIX literal of service.py. -/
def squadPfx : String := "squad_"

/-- Value of the "updated" field of a raw issue: absent, a string, or a
number (the source tests isinstance str, then isinstance (int, float)). -/
inductive UpdatedVal where
  | absent : UpdatedVal
  | str (v : String) : UpdatedVal
  | num (n : Int) : UpdatedVal
deriving DecidableEq

/-- Parent issue reference: issue-type name (getattr chain, default "")
and the parent's key. -/
structure ParentRef where
  itypeName : String
  key : String
deriving DecidableEq

/-- One raw sprint value inside a sprint field, before normalization:
the id / name / state attributes may each be absent. -/
structure SprintVal where
  sid : Option String
  sname : Option String
  sstate : Option String
deriving DecidableEq

/-- Shape of a sprint-bearing field: absent (None), a single sprint
object, or a list of sprint objects. -/
inductive SprintField where
  | absent : SprintField
  | one (v : SprintVal) : SprintField
  | many (vs : List SprintVal) : SprintField
deriving DecidableEq

/-- Python truthiness of a sprint field value: None is falsy, a single
object is truthy, a list is truthy iff non-empty. -/
def sprintFieldTruthy : SprintField → Bool
  | SprintField.absent => false
  | SprintField.one _ => true
  | SprintField.many vs => !vs.isEmpty

/-- A raw issue record as consumed by the sync service.  String fields
read with getattr(..., "") defaults are plain `String` (absent folds to
""); genuinely optional attributes are `Option`.  `epicLink` is the
value of the configured epic-link field (default customfield_10014);
`legacySprints` is customfield_10020. -/
structure Issue where
  key : String
  iid : String
  summary : String
  itypeName : String
  statusName : Option String
  statusCategoryKey : Option String
  resolutionName : Option String
  labels : List String
  updated : UpdatedVal
  version : Option String
  parent : Option ParentRef
  epicLink : Option String
  sprints : SprintField
  legacySprints : SprintField
deriving DecidableEq

/-- A normalized sprint, result of _normalize_sprint: id (in its str()
form), name defaulting to "Sprint <id>", state defaulting to "active". -/
structure NSprint where
  id : String
  name : String
  state : String
deriving DecidableEq

/-- _normalize_sprint: None when the id attribute is missing, else the
normalized record with defaults. -/
def normalizeSprint (v : SprintVal) : Option NSprint :=
  match v.sid with
  | none => none
  | some sid => some ⟨sid, v.sname.getD ("Sprint " ++ sid), v.sstate.getD ("active")⟩

/-- Normalized sprints of the primary sprint field (a single value is
wrapped into a one-element list first). -/
def primarySprints (i : Issue) : List NSprint :=
  (match i.sprints with
   | SprintField.one v => [v]
   | SprintField.many vs => vs
   | SprintField.absent => []).filterMap normalizeSprint

/-- Normalized sprints of the legacy customfield_10020 fallback, which
is only used when its value is a list. -/
def legacySprintList (i : Issue) : List NSprint :=
  match i.legacySprints with
  | SprintField.many vs => vs.filterMap normalizeSprint
  | _ => []

/-- _issue_sprints: primary sprint field first; the legacy
customfield_10020 is consulted only when the primary field is falsy or
normalizes to nothing. -/
def issueSprints (i : Issue) : List NSprint :=
  if sprintFieldTruthy i.sprints then
    if !(primarySprints i).isEmpty then primarySprints i else legacySprintList i
  else legacySprintList i

/-- Seen-set based dedup over a flattened sprint list (the nested loop
of _extract_sprints). -/
def extractSprintsAux : List NSprint → List String → List NSprint
  | [], _ => []
  | sp :: rest, seen =>
    if sp.id ≠ "" ∧ sp.id ∉ seen then sp :: extractSprintsAux rest (sp.id :: seen)
    else extractSprintsAux rest seen

/-- _extract_sprints: de-duplicated union of sprint ids across the
batch, preserving first-seen order, skipping falsy ids. -/
def extractSprints (issues : List Issue) : List NSprint :=
  extractSprintsAux ((issues.map issueSprints).flatten) []

/-- _issues_in_sprint: the issues whose sprint memberships include the
given sprint id. -/
def issuesInSprint (issues : List Issue) (sprintId : String) : List Issue :=
  issues.filter (fun i => (issueSprints i).any (fun s => s.id == sprintId))

/-- _extract_epic_key: self-is-epic check, then epic-typed parent, then
the configured epic-link field when it is a non-blank string. -/
def extractEpicKey (i : Issue) : Option String :=
  if pyLower i.itypeName == "epic" then some i.key
  else
    match i.parent with
    | some p =>
      if pyLower p.itypeName == "epic" then some p.key
      else
        match i.epicLink with
        | some s => if pyStrip s ≠ "" then some (pyStrip s) else none
        | none => none
    | none =>
      match i.epicLink with
      | some s => if pyStrip s ≠ "" then some (pyStrip s) else none
      | none => none

/-- _is_dod_task: summary begins with the literal DoD prefix. -/
def isDodTask (i : Issue) : Bool := strStarts i.summary dodPfx

/-- _is_done: resolution name (stripped, lower-cased) equals "done" or
status-category key (lower-cased) equals "done". -/
def isDone (i : Issue) : Bool :=
  if pyLower (pyStrip (i.resolutionName.getD "")) == "done" then true
  else pyLower (i.statusCategoryKey.getD "") == "done"

/-- Character class of the regex [^a-z0-9] (the source applies it after
lower-casing): the complement of lowercase ASCII alphanumerics. -/
def isCatAlnum (c : Char) : Bool :=
  ( 'a' ≤ c && c ≤ 'z') || ( '0' ≤ c && c ≤ '9')

/-- Replace every maximal run of characters failing p by a single
underscore (re.sub of a one-or-more negated class); the flag records
being inside such a run. -/
def collapseRuns (p : Char → Bool) : Bool → List Char → List Char
  | _, [] => []
  | inRun, c :: rest =>
    if p c then c :: collapseRuns p false rest
    else if inRun then collapseRuns p true rest
    else '_' :: collapseRuns p true rest

/-- Python str.lstrip("_"). -/
def stripLead (l : List Char) : List Char := l.dropWhile (fun c => c == '_')

/-- Python str.rstrip("_"). -/
def stripTrail (l : List Char) : List Char :=
  (l.reverse.dropWhile (fun c => c == '_')).reverse

/-- Python str.strip("_"). -/
def stripUnder (l : List Char) : List Char := stripLead (stripTrail l)

/-- _extract_dod_category: strip the prefix, trim, lower-case, collapse
non-alphanumeric runs to single underscores, trim underscores, default
"general". -/
def extractDodCategory (summary : String) : String :=
  let raw := pyLower (pyStrip (strDrop summary dodPfx.data.length))
  let normalized := String.mk (stripUnder (collapseRuns isCatAlnum false raw.data))
  if normalized == "" then "general" else normalized

/-- Insert into a list modelling a Python set (no duplicates). -/
def insertSet (x : String) (l : List String) : List String :=
  if l.contains x then l else l ++ [x]

/-- Lexicographic comparison of code-point lists (Python string order). -/
def lexLeB : List Char → List Char → Bool
  | [], _ => true
  | _ :: _, [] => false
  | a :: l, b :: m =>
    if a.toNat < b.toNat then true
    else if b.toNat < a.toNat then false
    else lexLeB l m

/-- Python string comparison a <= b. -/
def strLeB (a b : String) : Bool := lexLeB a.data b.data

/-- Insert into a list sorted by le (the inner step of insertion sort). -/
def ordInsert {α : Type} (le : α → α → Bool) (x : α) : List α → List α
  | [] => [x]
  | y :: ys => if le x y then x :: y :: ys else y :: ordInsert le x ys

/-- Insertion sort by a boolean comparison; with a total comparison this
produces the same list as Python sorted, since all keys used below are
pairwise distinct. -/
def insSort {α : Type} (le : α → α → Bool) : List α → List α
  | [] => []
  | x :: xs => ordInsert le x (insSort le xs)

/-- Sort a list of strings ascending (Python sorted on str). -/
def sortedStrings (l : List String) : List String := insSort strLeB l

/-- Loop body of _extract_team_metadata for one label over the
accumulated (team keys, warnings). -/
def teamMetaStep (acc : List String × List String) (label : String) :
    List String × List String :=
  let raw := pyStrip label
  if raw == "" then acc
  else
    let normalized := pyLower raw
    if strStarts normalized squadPfx then
      let tname := pyStrip (strDrop normalized squadPfx.data.length)
      if tname == "" then (acc.1, insertSet raw acc.2)
      else (insertSet (squadPfx ++ tname) acc.1, acc.2)
    else if strStarts normalized ("squad") then (acc.1, insertSet raw acc.2)
    else acc

/-- _extract_team_metadata: (team-key set, missing flag, sorted distinct
warnings) over all labels of all given issues. -/
def extractTeamMetadata (issues : List Issue) :
    List String × Bool × List String :=
  let acc := issues.foldl (fun a i => i.labels.foldl teamMetaStep a) ([], [])
  (acc.1, acc.1.isEmpty, sortedStrings acc.2)

/-- _issue_version_token after the isinstance(str) / isinstance(int,
float) tests have failed: explicit version attribute, else the
synthetic fallback token. -/
def versionTokenTail (i : Issue) : String :=
  match i.version with
  | some v => v
  | none =>
      "fallback:" ++ (i.statusName.getD "") ++ "|" ++
        (i.resolutionName.getD "") ++ "|" ++ i.summary

/-- _issue_version_token: non-blank string "updated" (stripped), else
numeric "updated" in str() form, else the tail cases. -/
def issueVersionToken (i : Issue) : String :=
  match i.updated with
  | UpdatedVal.str v => if pyStrip v ≠ "" then pyStrip v else versionTokenTail i
  | UpdatedVal.num n => toString n
  | UpdatedVal.absent => versionTokenTail i

/-- Membership test on an association list (Python `in` on a dict). -/
def alContains {α : Type} (l : List (String × α)) (k : String) : Bool :=
  l.any (fun p => p.1 == k)

/-- Python dict lookup (keys are unique, first match). -/
def alGet {α : Type} (l : List (String × α)) (k : String) : Option α :=
  (l.find? (fun p => p.1 == k)).map (fun p => p.2)

/-- Python dict assignment d[k] = v: replace in place when the key
exists (its insertion position is retained), else append. -/
def alUpsert {α : Type} (l : List (String × α)) (k : String) (v : α) :
    List (String × α) :=
  if alContains l k then l.map (fun p => if p.1 == k then (k, v) else p)
  else l ++ [(k, v)]

/-- One iteration of the _build_issue_versions loop: skip blank keys,
else assign the version token under the stripped key. -/
def fpStep (acc : List (String × String)) (i : Issue) : List (String × String) :=
  let k := pyStrip i.key
  if k == "" then acc else alUpsert acc k (issueVersionToken i)

/-- _build_issue_versions: Python dict keyed by stripped issue key
(blank keys skipped), then dict(sorted(items)). -/
def buildIssueVersions (issues : List Issue) : List (String × String) :=
  insSort (fun a b => strLeB a.1 b.1) (issues.foldl fpStep [])

/-- A persisted SprintSnapshot row. -/
structure SprintRow where
  id : Nat
  jiraSprintId : String
  sprintName : String
  sprintState : String
  syncTs : Int
  issueVersions : List (String × String)
deriving DecidableEq

/-- A persisted EpicSnapshot row. -/
structure EpicRow where
  id : Nat
  sprintSnapshotId : Nat
  jiraIssueId : String
  jiraKey : String
  summary : String
  statusName : String
  resolutionName : String
  isDone : Bool
  jiraUrl : String
  missingSquadLabels : Bool
  squadLabelWarnings : List String
deriving DecidableEq

/-- A persisted DoDTaskSnapshot row. -/
structure TaskRow where
  id : Nat
  epicSnapshotId : Nat
  jiraIssueId : String
  jiraKey : String
  summary : String
  category : String
  statusName : String
  resolutionName : String
  isDone : Bool
  jiraUrl : String
  hasEvidenceLink : Bool
  evidenceLink : String
  nonComplianceReason : String
deriving DecidableEq

/-- Database state: snapshot tables, team keys (Team rows), the
epic-team many-to-many links, and the next fresh primary key. -/
structure DB where
  nextId : Nat
  sprintRows : List SprintRow
  epicRows : List EpicRow
  taskRows : List TaskRow
  teamRows : List String
  teamLinks : List (Nat × String)
deriving DecidableEq

/-- The empty database. -/
def DB.empty : DB := ⟨0, [], [], [], [], []⟩

/-- _non_compliance_reason: comma-joined reason codes. -/
def noncomplReason (done hasLink : Bool) : String :=
  String.intercalate ("," )
    ((if !done then ["task_not_done"] else []) ++
      (if !hasLink then ["missing_evidence_link"] else []))

/-- Result of _evaluate_epic (the EpicEvaluation dataclass). -/
structure EpicEvalRes where
  isCompliant : Bool
  reasons : List String
  failingTasks : List TaskRow
  scopedTasks : List TaskRow
deriving DecidableEq

/-- _task_is_compliant. -/
def taskIsCompliant (t : TaskRow) : Bool := t.isDone && t.hasEvidenceLink

/-- Python truthiness of the optional category-filter string (None and
the empty string are falsy). -/
def filterTruthy : Option String → Bool
  | none => false
  | some s => !(s == "")

/-- The scoped task list of _evaluate_epic: all tasks when the filter
is falsy, else the tasks whose category equals the filter. -/
def scopedTasksOf (tasks : List TaskRow) (categoryFilter : Option String) :
    List TaskRow :=
  tasks.filter
    (fun t => !filterTruthy categoryFilter || (some t.category == categoryFilter))

/-- _evaluate_epic over the epic's task rows: None when a truthy filter
leaves no tasks; the no_dod_tasks evaluation when no tasks remain
without a truthy filter; otherwise compliance over the scoped tasks. -/
def evaluateEpic (tasks : List TaskRow) (categoryFilter : Option String) :
    Option EpicEvalRes :=
  let scopedT := scopedTasksOf tasks categoryFilter
  if filterTruthy categoryFilter && scopedT.isEmpty then none
  else if scopedT.isEmpty then some ⟨false, ["no_dod_tasks"], [], []⟩
  else
    let failing := scopedT.filter (fun t => !taskIsCompliant t)
    some ⟨failing.isEmpty,
      if failing.isEmpty then [] else ["incomplete_dod_tasks"], failing, scopedT⟩

/-- One NudgeLog row, reduced to its sent timestamp (microseconds). -/
structure NudgeLogRow where
  sentAt : Int
deriving DecidableEq

/-- The scan of Python max by sent_at (a later entry replaces the
running maximum only when strictly greater, so the first maximum wins). -/
def latestNudgeGo : Option NudgeLogRow → List NudgeLogRow → Option NudgeLogRow
  | acc, [] => acc
  | none, lg :: rest => latestNudgeGo (some lg) rest
  | some b, lg :: rest =>
    latestNudgeGo (some (if lg.sentAt > b.sentAt then lg else b)) rest

/-- _latest_nudge_log: Python max by sent_at over the epic's logs. -/
def latestNudgeLog (logs : List NudgeLogRow) : Option NudgeLogRow :=
  latestNudgeGo none logs

/-- _nudge_state: (cooldown_active, seconds_remaining, last_sent_at).
Timestamps are microseconds; int(timedelta.total_seconds()) truncates
toward zero, which is Int.tdiv by 1000000. -/
def nudgeState (logs : List NudgeLogRow) (cooldownHours : Int) (now : Int) :
    Bool × Int × Option Int :=
  match latestNudgeLog logs with
  | none => (false, 0, none)
  | some lg =>
    let expiresAt := lg.sentAt + cooldownHours * 3600 * 1000000
    let remaining := Int.tdiv (expiresAt - now) 1000000
    (decide (0 < remaining), max remaining 0, some lg.sentAt)

/-- Percentage formula round(compliant / total * 100, 2), 0.0 on an
empty total, represented exactly as an integer count of hundredths of
a percent: round-half-even of compliant / total * 10000, computed on
the exact rational value (the float detour of the source is modelled
by exact arithmetic).  Dividing by 100 is order-preserving, so ordering
hundredths orders percentages. -/
def pctHundredths (compliant total : Nat) : Nat :=
  if total = 0 then 0
  else
    let q := compliant * 10000 / total
    let r := compliant * 10000 % total
    if 2 * r < total then q
    else if total < 2 * r then q + 1
    else if q % 2 = 0 then q else q + 1

/-- Per-team counter update (defaultdict insertion order: first touch
appends at the end; later touches update in place). -/
def bumpTeam (l : List (String × Nat × Nat)) (k : String) (comp : Bool) :
    List (String × Nat × Nat) :=
  if alContains l k then
    l.map (fun p =>
      if p.1 == k then (p.1, p.2.1 + 1, p.2.2 + (if comp then 1 else 0)) else p)
  else l ++ [(k, 1, if comp then 1 else 0)]

/-- The counters loop of _build_team_metrics.  An evaluated epic is
reduced to the pair (its team keys, its evaluation), the only data the
function reads. -/
def teamCounters (evaluated : List (List String × EpicEvalRes)) :
    List (String × Nat × Nat) :=
  evaluated.foldl
    (fun acc e => e.1.foldl (fun a k => bumpTeam a k e.2.isCompliant) acc) []

/-- One by_team output row (before rank assignment); pct is the
compliance percentage in hundredths. -/
structure TeamRow where
  team : String
  totalEpics : Nat
  compliantEpics : Nat
  nonCompliantEpics : Nat
  pct : Nat
deriving DecidableEq

/-- Build one metrics row from a counter entry. -/
def teamRowOf (p : String × Nat × Nat) : TeamRow :=
  ⟨p.1, p.2.1, p.2.2, p.2.1 - p.2.2, pctHundredths p.2.2 p.2.1⟩

/-- The sort key (-percentage, -compliant, -total, team) of
_build_team_metrics, as a boolean comparison. -/
def teamRowLeB (a b : TeamRow) : Bool :=
  if b.pct < a.pct then true
  else if a.pct < b.pct then false
  else if b.compliantEpics < a.compliantEpics then true
  else if a.compliantEpics < b.compliantEpics then false
  else if b.totalEpics < a.totalEpics then true
  else if a.totalEpics < b.totalEpics then false
  else strLeB a.team b.team

/-- _build_team_metrics: counters, rows, deterministic sort, 1-based
ranks.  Since distinct rows carry distinct team keys the comparison is
a total order and the sorted list is unique, so insertion sort yields
exactly the list Python's stable sort yields. -/
def buildTeamMetrics (evaluated : List (List String × EpicEvalRes)) :
    List (Nat × TeamRow) :=
  let sorted := insSort teamRowLeB ((teamCounters evaluated).map teamRowOf)
  sorted.enum.map (fun p => (p.1 + 1, p.2))

instance {ε α : Type} [DecidableEq ε] [DecidableEq α] : DecidableEq (Except ε α) := fun x y =>
  match x, y with
  | Except.ok a, Except.ok b =>
    if h : a = b then isTrue (by rw [h])
    else isFalse (by intro hh; cases hh; exact h rfl)
  | Except.ok _, Except.error _ => isFalse (by intro h; cases h)
  | Except.error _, Except.ok _ => isFalse (by intro h; cases h)
  | Except.error e, Except.error f =>
    if h : e = f then isTrue (by rw [h])
    else isFalse (by intro hh; cases hh; exact h rfl)

/-- Error raised out of the sync service: an adapter/transport error or
a database unique-constraint violation. -/
inductive SyncErr where
  | adapterErr (detail : String) : SyncErr
  | integrityErr (detail : String) : SyncErr
deriving DecidableEq

/-- One remote link record (link.object.url, read defensively). -/
structure RemoteLink where
  url : Option String
deriving DecidableEq

/-- The issue-source adapter: the active-sprint search result plus the
two per-key fetch operations, each of which may raise. -/
structure Adapter where
  baseUrl : String
  searchResult : List Issue
  fetchIssue : String → Except SyncErr Issue
  fetchRemoteLinks : String → Except SyncErr (List RemoteLink)

/-- _first_remote_link: the first link whose url is a non-blank string,
stripped. -/
def firstRemoteLink (links : List RemoteLink) : Option String :=
  links.findSome?
    (fun l =>
      match l.url with
      | some u => if pyStrip u ≠ "" then some (pyStrip u) else none
      | none => none)

/-- The fetch loop of the by_key construction: one fetch per referenced
epic key that is truthy and not yet present in the dict. -/
def fetchEpicsGo (a : Adapter) : List Issue → List (String × Issue) →
    Except SyncErr (List (String × Issue))
  | [], acc => Except.ok acc
  | i :: rest, acc =>
    match extractEpicKey i with
    | some ek =>
      if ek == "" || alContains acc ek then fetchEpicsGo a rest acc
      else
        match a.fetchIssue ek with
        | Except.error e => Except.error e
        | Except.ok e => fetchEpicsGo a rest (acc ++ [(ek, e)])
    | none => fetchEpicsGo a rest acc

/-- by_key construction of sync_active_sprint: the dict comprehension
over the in-sprint issues, then the epic fetch loop. -/
def buildByKey (a : Adapter) (inSprint : List Issue) :
    Except SyncErr (List (String × Issue)) :=
  fetchEpicsGo a inSprint (inSprint.foldl (fun acc i => alUpsert acc i.key i) [])

/-- The db-independent part of one sprint iteration: the filtered batch
(none when empty, which makes the loop skip the sprint) together with
the by_key dict. -/
def sprintCandidate (a : Adapter) (issues : List Issue) (sid : String) :
    Except SyncErr (Option (List Issue × List (String × Issue))) :=
  let inSprint := issuesInSprint issues sid
  if inSprint.isEmpty then Except.ok none
  else (buildByKey a inSprint).map (fun bk => some (inSprint, bk))

/-- One comparison step of the order_by (-sync_timestamp, -id) scan:
keep the row with the lexicographically larger (sync_timestamp, id). -/
def snapPick (acc : Option SprintRow) (r : SprintRow) : Option SprintRow :=
  match acc with
  | none => some r
  | some b =>
    if r.syncTs > b.syncTs ∨ (r.syncTs = b.syncTs ∧ r.id > b.id) then some r
    else some b

/-- Most recently persisted snapshot for a sprint id: order_by
(-sync_timestamp, -id) and take the first. -/
def latestSnapshotFor (rows : List SprintRow) (sid : String) : Option SprintRow :=
  (rows.filter (fun r => r.jiraSprintId == sid)).foldl snapPick none

/-- _should_skip_sprint_snapshot: the change-detection gate.  Stored
fingerprints are in canonical key-sorted form, so dict equality is list
equality. -/
def shouldSkipSprint (db : DB) (sid : String) (fp : List (String × String)) : Bool :=
  match latestSnapshotFor db.sprintRows sid with
  | none => false
  | some r => r.issueVersions == fp

/-- SprintSnapshot.objects.create. -/
def createSprintRow (db : DB) (sp : NSprint) (now : Int)
    (fp : List (String × String)) : SprintRow × DB :=
  let r : SprintRow := ⟨db.nextId, sp.id, sp.name, sp.state, now, fp⟩
  (r, { db with nextId := db.nextId + 1, sprintRows := db.sprintRows ++ [r] })

/-- EpicSnapshot.objects.create; raises IntegrityError when the unique
constraint (sprint_snapshot, jira_issue_id) is violated. -/
def createEpicRow (db : DB) (sprintRowId : Nat) (baseUrl : String) (i : Issue)
    (missing : Bool) (warns : List String) : Except SyncErr (EpicRow × DB) :=
  if db.epicRows.any
      (fun e => e.sprintSnapshotId == sprintRowId && e.jiraIssueId == i.iid) then
    Except.error (SyncErr.integrityErr ("uniq_epic_snapshot_per_sprint_issue"))
  else
    let r : EpicRow :=
      ⟨db.nextId, sprintRowId, i.iid, i.key, i.summary,
        i.statusName.getD ("Unknown"), i.resolutionName.getD (""), isDone i,
        baseUrl ++ "/browse/" ++ i.key, missing, warns⟩
    Except.ok (r, { db with nextId := db.nextId + 1, epicRows := db.epicRows ++ [r] })

/-- DoDTaskSnapshot.objects.create; raises IntegrityError when the
unique constraint (epic_snapshot, jira_issue_id) is violated. -/
def createTaskRow (db : DB) (epicRowId : Nat) (baseUrl : String) (i : Issue)
    (linkUrl : Option String) : Except SyncErr (TaskRow × DB) :=
  if db.taskRows.any
      (fun t => t.epicSnapshotId == epicRowId && t.jiraIssueId == i.iid) then
    Except.error (SyncErr.integrityErr ("uniq_dod_task_snapshot_per_epic_issue"))
  else
    let r : TaskRow :=
      ⟨db.nextId, epicRowId, i.iid, i.key, i.summary,
        extractDodCategory i.summary, i.statusName.getD ("Unknown"),
        i.resolutionName.getD (""), isDone i, baseUrl ++ "/browse/" ++ i.key,
        linkUrl.isSome, linkUrl.getD (""), noncomplReason (isDone i) linkUrl.isSome⟩
    Except.ok (r, { db with nextId := db.nextId + 1, taskRows := db.taskRows ++ [r] })

/-- Team.objects.get_or_create by key. -/
def ensureTeam (db : DB) (k : String) : DB :=
  if db.teamRows.contains k then db
  else { db with teamRows := db.teamRows ++ [k] }

/-- epic_snapshot.teams.add (many-to-many set semantics). -/
def addTeamLink (db : DB) (epicRowId : Nat) (k : String) : DB :=
  let db2 := ensureTeam db k
  if db2.teamLinks.contains (epicRowId, k) then db2
  else { db2 with teamLinks := db2.teamLinks ++ [(epicRowId, k)] }

/-- epic_map.setdefault(key, []).append(issue). -/
def epicGroupAdd (l : List (String × List Issue)) (k : String) (i : Issue) :
    List (String × List Issue) :=
  if alContains l k then l.map (fun p => if p.1 == k then (p.1, p.2 ++ [i]) else p)
  else l ++ [(k, [i])]

/-- The epic_map grouping loop of _sync_sprint_epics (truthy keys only). -/
def buildEpicMap (inSprint : List Issue) : List (String × List Issue) :=
  inSprint.foldl
    (fun acc i =>
      match extractEpicKey i with
      | some ek => if ek == "" then acc else epicGroupAdd acc ek i
      | none => acc)
    []

/-- The DoD-task loop for one epic: fetch remote links and create one
task row per linked DoD task, counting created tasks. -/
def syncDodTasksGo (a : Adapter) (epicRowId : Nat) :
    List Issue → Nat → DB → Except SyncErr (Nat × DB)
  | [], n, db => Except.ok (n, db)
  | i :: rest, n, db =>
    if isDodTask i then
      match a.fetchRemoteLinks i.key with
      | Except.error e => Except.error e
      | Except.ok links =>
        match createTaskRow db epicRowId a.baseUrl i (firstRemoteLink links) with
        | Except.error e => Except.error e
        | Except.ok r => syncDodTasksGo a epicRowId rest (n + 1) r.2
    else syncDodTasksGo a epicRowId rest n db

/-- One iteration of the epic_map loop of _sync_sprint_epics: resolve
the epic issue (by_key first, adapter fetch otherwise), extract team
metadata, create the epic row, link teams, create the DoD task rows. -/
def syncOneEpic (a : Adapter) (sprintRowId : Nat) (byKey : List (String × Issue))
    (ek : String) (linked : List Issue) (db : DB) : Except SyncErr (Nat × DB) :=
  match (match alGet byKey ek with
         | some e => Except.ok e
         | none => a.fetchIssue ek : Except SyncErr Issue) with
  | Except.error e => Except.error e
  | Except.ok epicIssue =>
    let meta := extractTeamMetadata (epicIssue :: linked)
    match createEpicRow db sprintRowId a.baseUrl epicIssue meta.2.1 meta.2.2 with
    | Except.error e => Except.error e
    | Except.ok er =>
      let db2 := meta.1.foldl (fun d k => addTeamLink d er.1.id k) er.2
      syncDodTasksGo a er.1.id linked 0 db2

/-- The epic_map loop of _sync_sprint_epics, accumulating (created
epics, created DoD tasks). -/
def syncEpicsGo (a : Adapter) (sprintRowId : Nat) (byKey : List (String × Issue)) :
    List (String × List Issue) → Nat → Nat → DB → Except SyncErr ((Nat × Nat) × DB)
  | [], ce, ct, db => Except.ok ((ce, ct), db)
  | p :: rest, ce, ct, db =>
    match syncOneEpic a sprintRowId byKey p.1 p.2 db with
    | Except.error e => Except.error e
    | Except.ok r => syncEpicsGo a sprintRowId byKey rest (ce + 1) (ct + r.1) r.2

/-- _sync_sprint_epics: group by resolved epic key, then the epic loop. -/
def syncSprintEpics (a : Adapter) (sprintRowId : Nat) (inSprint : List Issue)
    (byKey : List (String × Issue)) (db : DB) : Except SyncErr ((Nat × Nat) × DB) :=
  syncEpicsGo a sprintRowId byKey (buildEpicMap inSprint) 0 0 db

/-- The body of the with transaction.atomic() block for one sprint.
An error anywhere in the body surfaces as Except.error and the caller
keeps the pre-transaction state: this is the rollback semantics of the
atomic block. -/
def commitSprint (a : Adapter) (now : Int) (sp : NSprint) (inSprint : List Issue)
    (byKey : List (String × Issue)) (fp : List (String × String)) (db : DB) :
    Except SyncErr ((Nat × Nat × Nat) × DB) :=
  let sr := createSprintRow db sp now fp
  match syncSprintEpics a sr.1.id inSprint byKey sr.2 with
  | Except.error e => Except.error e
  | Except.ok r => Except.ok ((1, r.1.1, r.1.2), r.2)

/-- One iteration of the per-sprint loop of sync_active_sprint: skip on
an empty filtered batch, fingerprint the candidate, consult the
change-detection gate, otherwise run the transactional commit.  No
write precedes the transaction inside one iteration, so an error
leaves the database exactly as it was before the iteration. -/
def runSprint (a : Adapter) (now : Int) (issues : List Issue) (sp : NSprint)
    (db : DB) : Except SyncErr ((Nat × Nat × Nat) × DB) :=
  match sprintCandidate a issues sp.id with
  | Except.error e => Except.error e
  | Except.ok none => Except.ok ((0, 0, 0), db)
  | Except.ok (some (inSprint, byKey)) =>
    let fp := buildIssueVersions (byKey.map (fun p => p.2))
    if shouldSkipSprint db sp.id fp then Except.ok ((0, 0, 0), db)
    else commitSprint a now sp inSprint byKey fp db

/-- The SyncSummary dataclass. -/
structure SyncSummary where
  sprintSnapshots : Nat
  epicSnapshots : Nat
  dodTaskSnapshots : Nat
deriving DecidableEq

/-- The per-sprint loop: a failing sprint aborts the invocation with
the database in its last committed state; a successful sprint threads
its state and counter deltas forward. -/
def syncLoop (a : Adapter) (now : Int) (issues : List Issue) :
    List NSprint → DB → Nat → Nat → Nat → Except SyncErr SyncSummary × DB
  | [], db, s, e, t => (Except.ok ⟨s, e, t⟩, db)
  | sp :: rest, db, s, e, t =>
    match runSprint a now issues sp db with
    | Except.error err => (Except.error err, db)
    | Except.ok (c, db2) => syncLoop a now issues rest db2 (s + c.1) (e + c.2.1) (t + c.2.2)

/-- sync_active_sprint: empty search result returns the zero summary
with no writes; otherwise the per-sprint loop over the extracted
candidate sprints. -/
def syncActiveSprint (a : Adapter) (now : Int) (db : DB) :
    Except SyncErr SyncSummary × DB :=
  if a.searchResult.isEmpty then (Except.ok ⟨0, 0, 0⟩, db)
  else syncLoop a now a.searchResult (extractSprints a.searchResult) db 0 0 0

/-- State reached after successfully committing a prefix of the sprint
list (none when some sprint of the prefix fails). -/
def commitPrefix (a : Adapter) (now : Int) (issues : List Issue) :
    List NSprint → DB → Option DB
  | [], db => some db
  | sp :: rest, db =>
    match runSprint a now issues sp db with
    | Except.ok (_, db2) => commitPrefix a now issues rest db2
    | Except.error _ => none

/-- Per-label team key (the claim's characterization of one loop
iteration of _extract_team_metadata): the key squad_ plus the
lower-cased trimmed remainder, when the trimmed label lower-cased
starts with squad_ and the remainder is non-empty after trimming. -/
def labelTeamKey (label : String) : Option String :=
  let raw := pyStrip label
  if raw == "" then none
  else
    let normalized := pyLower raw
    if strStarts normalized squadPfx then
      let tname := pyStrip (strDrop normalized squadPfx.data.length)
      if tname == "" then none else some (squadPfx ++ tname)
    else none

/-- Per-label warning test: a trimmed non-empty label whose lower-cased
form either starts with squad_ with an empty remainder, or starts with
squad but not squad_. -/
def labelWarns (label : String) : Bool :=
  let raw := pyStrip label
  if raw == "" then false
  else
    let normalized := pyLower raw
    if strStarts normalized squadPfx then
      pyStrip (strDrop normalized squadPfx.data.length) == ""
    else strStarts normalized ("squad")

/-- Full alphanumeric test (ASCII letters of either case, or digits). -/
def isAlnumChar (c : Char) : Bool :=
  ( 'a' ≤ c && c ≤ 'z') || ( 'A' ≤ c && c ≤ 'Z') || ( '0' ≤ c && c ≤ '9')

/-- Category derivation as worded by the specification: the remainder
after the DoD prefix, lower-cased, every maximal run of
non-alphanumeric characters replaced by a single underscore, leading
and trailing underscores stripped, with the empty result mapping to
general.  (The source additionally trims whitespace before lower-casing,
which the refinement theorem shows to be equivalent.) -/
def dodCategorySpec (s : String) : String :=
  let lowered := pyLower (strDrop s dodPfx.data.length)
  let collapsed := String.mk (stripUnder (collapseRuns isAlnumChar false lowered.data))
  if collapsed == "" then "general" else collapsed

/-- Concrete fixture: an epic issue in sprint 1. -/
def epicFix : Issue :=
  { key := "E-1", iid := "10", summary := "", itypeName := "Epic",
    statusName := none, statusCategoryKey := none, resolutionName := none,
    labels := ["squad_platform"], updated := UpdatedVal.absent, version := none,
    parent := none, epicLink := none,
    sprints := SprintField.one { sid := some "1", sname := none, sstate := none },
    legacySprints := SprintField.absent }

/-- Concrete fixture: a DoD task linked to epicFix through its parent. -/
def taskFix : Issue :=
  { key := "T-1", iid := "11", summary := "DoD - Automated tests",
    itypeName := "Task",
    statusName := none, statusCategoryKey := some "done", resolutionName := none,
    labels := [], updated := UpdatedVal.str (" 2024-01-02 "), version := none,
    parent := some { itypeName := "Epic", key := "E-1" }, epicLink := none,
    sprints := SprintField.one { sid := some "1", sname := none, sstate := none },
    legacySprints := SprintField.absent }

/-- Concrete fixture: an adapter serving epicFix and taskFix, with one
remote link for every remote-link lookup. -/
def adapterFix : Adapter :=
  { baseUrl := "http://j", searchResult := [epicFix, taskFix],
    fetchIssue := fun _ => Except.error (SyncErr.adapterErr ("unused")),
    fetchRemoteLinks := fun _ => Except.ok [{ url := some (" https://x/1 ") }] }

/-- Concrete fixture: an epic whose external issue id collides with
epicFix2b inside the same sprint. -/
def epicFix2a : Issue :=
  { key := "A-1", iid := "9", summary := "", itypeName := "Epic",
    statusName := none, statusCategoryKey := none, resolutionName := none,
    labels := [], updated := UpdatedVal.absent, version := none,
    parent := none, epicLink := none,
    sprints := SprintField.one { sid := some "1", sname := none, sstate := none },
    legacySprints := SprintField.absent }

/-- Concrete fixture: a second epic with the same external issue id. -/
def epicFix2b : Issue := { epicFix2a with key := "B-1" }

/-- Concrete fixture: an adapter whose batch makes the per-sprint
transaction violate the epic unique constraint. -/
def adapterDup : Adapter :=
  { baseUrl := "http://j", searchResult := [epicFix2a, epicFix2b],
    fetchIssue := fun _ => Except.error (SyncErr.adapterErr ("unused")),
    fetchRemoteLinks := fun _ => Except.ok [] }

/-- Concrete fixture: an issue whose updated field carries surrounding
whitespace. -/
def issuePaddedUpd : Issue :=
  { key := "U-1", iid := "20", summary := "s", itypeName := "Task",
    statusName := some "Open", statusCategoryKey := none,
    resolutionName := none, labels := [], updated := UpdatedVal.str (" 2024-01-01 "),
    version := none, parent := none, epicLink := none,
    sprints := SprintField.absent, legacySprints := SprintField.absent }

/-- Concrete fixture: an issue with a sprint in its primary field and a
single (non-list) sprint object in the legacy field. -/
def issueLegacyOne : Issue :=
  { key := "L-1", iid := "21", summary := "", itypeName := "Task",
    statusName := none, statusCategoryKey := none, resolutionName := none,
    labels := [], updated := UpdatedVal.absent, version := none,
    parent := none, epicLink := none,
    sprints := SprintField.one { sid := some "5", sname := none, sstate := none },
    legacySprints := SprintField.one { sid := some "7", sname := none, sstate := none } }

example : extractDodCategory ("DoD - Threat Modelling Done!") = "threat_modelling_done" := by
  decide

example : extractDodCategory ("DoD - ") = "general" := by decide

example : extractTeamMetadata
    [{ key := "A", iid := "1", summary := "", itypeName := "Story",
       statusName := none, statusCategoryKey := none, resolutionName := none,
       labels := ["squad", "SQUAD_", "squad mobile"], updated := UpdatedVal.absent,
       version := none, parent := none, epicLink := none,
       sprints := SprintField.absent, legacySprints := SprintField.absent }] =
    ([], true, ["SQUAD_", "squad", "squad mobile"]) := by decide

theorem mem_insertSet {x y : String} {l : List String} :
    x ∈ insertSet y l ↔ x = y ∨ x ∈ l := by
  unfold insertSet
  by_cases h : l.contains y
  · simp only [h, if_pos]
    constructor
    · exact Or.inr
    · rintro (rfl | hx)
      · exact List.contains_iff_exists_mem_beq.mp h |>.elim
          (fun a ha => by
            rcases ha with ⟨ha, hb⟩
            rcases beq_iff_eq.mp hb
            exact ha)
      · exact hx
  · simp only [h, if_neg, Bool.false_eq_true, not_false_iff, List.mem_append,
      List.mem_singleton]
    tauto

theorem nodup_insertSet {y : String} {l : List String} (h : l.Nodup) :
    (insertSet y l).Nodup := by
  unfold insertSet
  by_cases hc : l.contains y = true
  · rw [if_pos hc]; exact h
  · rw [if_neg hc]
    have hy : y ∉ l := by
      intro hm
      exact hc (List.contains_iff_exists_mem_beq.mpr ⟨y, hm, beq_self_eq_true y⟩)
    simp [List.nodup_append, h, hy]

theorem ordInsert_perm {α : Type} (le : α → α → Bool) (x : α) (l : List α) :
    (ordInsert le x l).Perm (x :: l) := by
  induction l with
  | nil => exact List.Perm.refl _
  | cons y ys ih =>
    unfold ordInsert
    by_cases h : le x y = true
    · simp only [h, if_pos]
      exact List.Perm.refl _
    · simp only [h, if_neg, Bool.false_eq_true, not_false_iff]
      exact (ih.cons y).trans (List.Perm.swap x y ys)

theorem insSort_perm {α : Type} (le : α → α → Bool) (l : List α) :
    (insSort le l).Perm l := by
  induction l with
  | nil => exact List.Perm.refl _
  | cons x xs ih =>
    exact (ordInsert_perm le x (insSort le xs)).trans (ih.cons x)

theorem mem_insSort {α : Type} (le : α → α → Bool) {x : α} {l : List α} :
    x ∈ insSort le l ↔ x ∈ l :=
  (insSort_perm le l).mem_iff

theorem pairwise_ordInsert {α : Type} (le : α → α → Bool)
    (htot : ∀ a b, le a b = true ∨ le b a = true)
    (htrans : ∀ a b c, le a b = true → le b c = true → le a c = true)
    (x : α) (l : List α) (hp : l.Pairwise (fun a b => le a b = true)) :
    (ordInsert le x l).Pairwise (fun a b => le a b = true) := by
  induction l with
  | nil => simp [ordInsert]
  | cons y ys ih =>
    rcases List.pairwise_cons.mp hp with ⟨hy, hys⟩
    unfold ordInsert
    by_cases h : le x y = true
    · simp only [h, if_pos]
      refine List.pairwise_cons.mpr ⟨?_, hp⟩
      intro z hz
      rcases List.mem_cons.mp hz with rfl | hz2
      · exact h
      · exact htrans x y z h (hy z hz2)
    · simp only [h, if_neg, Bool.false_eq_true, not_false_iff]
      refine List.pairwise_cons.mpr ⟨?_, ih hys⟩
      intro z hz
      have hz2 : z ∈ x :: ys := (ordInsert_perm le x ys).mem_iff.mp hz
      rcases List.mem_cons.mp hz2 with rfl | hz3
      · rcases htot z y with hzy | hyz
        · exact absurd hzy h
        · exact hyz
      · exact hy z hz3

theorem pairwise_insSort {α : Type} (le : α → α → Bool)
    (htot : ∀ a b, le a b = true ∨ le b a = true)
    (htrans : ∀ a b c, le a b = true → le b c = true → le a c = true)
    (l : List α) : (insSort le l).Pairwise (fun a b => le a b = true) := by
  induction l with
  | nil => simp [insSort]
  | cons x xs ih => exact pairwise_ordInsert le htot htrans x _ ih

theorem lexLeB_total : ∀ l m : List Char, lexLeB l m = true ∨ lexLeB m l = true := by
  intro l
  induction l with
  | nil => intro m; left; rfl
  | cons a l ih =>
    intro m
    cases m with
    | nil => right; rfl
    | cons b m2 =>
      unfold lexLeB
      by_cases h1 : a.toNat < b.toNat
      · left; simp [h1]
      · by_cases h2 : b.toNat < a.toNat
        · right; simp [h1, h2]
        · rcases ih m2 with h | h
          · left; simp [h1, h2, h]
          · right; simp [h1, h2, h]

theorem lexLeB_trans :
    ∀ l m k : List Char, lexLeB l m = true → lexLeB m k = true → lexLeB l k = true := by
  intro l
  induction l with
  | nil => intro m k _ _; rfl
  | cons a l ih =>
    intro m k h1 h2
    cases m with
    | nil => exact absurd h1 (by simp [lexLeB])
    | cons b m2 =>
      cases k with
      | nil => exact absurd h2 (by simp [lexLeB])
      | cons c k2 =>
        unfold lexLeB at h1 h2 ⊢
        by_cases hab : a.toNat < b.toNat
        · by_cases hbc : b.toNat < c.toNat
          · have hac : a.toNat < c.toNat := lt_trans hab hbc
            simp [hac]
          · by_cases hcb : c.toNat < b.toNat
            · simp [hbc, hcb] at h2
            · have hac : a.toNat < c.toNat := by omega
              simp [hac]
        · by_cases hba : b.toNat < a.toNat
          · simp [hab, hba] at h1
          · by_cases hbc : b.toNat < c.toNat
            · have hac : a.toNat < c.toNat := by omega
              simp [hac]
            · by_cases hcb : c.toNat < b.toNat
              · simp [hbc, hcb] at h2
              · have hac : ¬ a.toNat < c.toNat := by omega
                have hca : ¬ c.toNat < a.toNat := by omega
                simp only [hab, hba, if_neg, Bool.false_eq_true] at h1
                simp only [hbc, hcb, if_neg, Bool.false_eq_true] at h2
                simp only [hac, hca, if_neg, Bool.false_eq_true]
                exact ih m2 k2 h1 h2

theorem strLeB_total (a b : String) : strLeB a b = true ∨ strLeB b a = true :=
  lexLeB_total a.data b.data

theorem strLeB_trans (a b c : String) :
    strLeB a b = true → strLeB b c = true → strLeB a c = true :=
  lexLeB_trans a.data b.data c.data

/-- Claim C3: epic evaluation postcondition: a set category filter with
no matching task excludes the epic entirely; zero tasks without a
filter yields the non-compliant no_dod_tasks evaluation; otherwise the
epic is compliant iff every scoped task is done with an evidence link,
a failure adds the incomplete_dod_tasks reason, and every failing
scoped task is listed. -/
theorem evaluate_epic_postcondition (tasks : List TaskRow) (f : Option String) :
    (∀ c, f = some c → c ≠ "" → (∀ t ∈ tasks, t.category ≠ c) →
      evaluateEpic tasks f = none)
  ∧ (f = none → tasks = [] →
      evaluateEpic tasks f = some ⟨false, ["no_dod_tasks"], [], []⟩)
  ∧ (scopedTasksOf tasks f ≠ [] →
      ∃ res, evaluateEpic tasks f = some res ∧
        (res.isCompliant = true ↔
          ∀ t ∈ scopedTasksOf tasks f, t.isDone = true ∧ t.hasEvidenceLink = true)
        ∧ res.failingTasks =
            (scopedTasksOf tasks f).filter (fun t => !taskIsCompliant t)
        ∧ res.scopedTasks = scopedTasksOf tasks f
        ∧ (res.failingTasks ≠ [] → ("incomplete_dod_tasks") ∈ res.reasons)) := by
  refine ⟨?_, ?_, ?_⟩
  · intro c hc hne hall
    subst hc
    have hft : filterTruthy (some c) = true := by
      simp [filterTruthy, hne]
    have hsc : scopedTasksOf tasks (some c) = [] := by
      unfold scopedTasksOf
      rw [List.filter_eq_nil_iff]
      intro t ht
      simp only [hft, Bool.not_true, Bool.false_or, beq_iff_eq, Option.some.injEq]
      exact fun h => hall t ht h
    simp [evaluateEpic, hsc, hft]
  · intro hf ht
    subst hf; subst ht
    rfl
  · intro hne
    have h2 : (scopedTasksOf tasks f).isEmpty = false := List.isEmpty_eq_false.mpr hne
    have heq : evaluateEpic tasks f = some
        ⟨((scopedTasksOf tasks f).filter (fun t => !taskIsCompliant t)).isEmpty,
          if ((scopedTasksOf tasks f).filter (fun t => !taskIsCompliant t)).isEmpty
            then [] else ["incomplete_dod_tasks"],
          (scopedTasksOf tasks f).filter (fun t => !taskIsCompliant t),
          scopedTasksOf tasks f⟩ := by
      unfold evaluateEpic
      simp [h2]
    refine ⟨_, heq, ?_, rfl, rfl, ?_⟩
    · constructor
      · intro h
        rw [List.isEmpty_iff, List.filter_eq_nil_iff] at h
        intro t ht
        have := h t ht
        simp only [taskIsCompliant, Bool.not_eq_true', Bool.not_eq_false,
          Bool.and_eq_true] at this
        exact this
      · intro h
        rw [List.isEmpty_iff, List.filter_eq_nil_iff]
        intro t ht
        have := h t ht
        simp only [taskIsCompliant, Bool.not_eq_true', Bool.not_eq_false,
          Bool.and_eq_true]
        exact this
    · intro hfail
      have h3 : ((scopedTasksOf tasks f).filter (fun t => !taskIsCompliant t)).isEmpty
          = false := List.isEmpty_eq_false.mpr hfail
      simp only [h3, Bool.false_eq_true, if_neg, not_false_iff, List.mem_singleton]

/-- Claim C3 witness: a filterless epic with zero DoD tasks evaluates
to the non-compliant no_dod_tasks result. -/
theorem evaluate_epic_postcondition_w :
    evaluateEpic [] none = some ⟨false, ["no_dod_tasks"], [], []⟩ :=
  (evaluate_epic_postcondition [] none).2.1 rfl rfl

/-- Claim C6: epic-key resolution precedence: own key for an epic-typed
issue, else the key of an epic-typed parent, else the trimmed non-blank
configured epic-link field, else none. -/
theorem epic_key_resolution (i : Issue) :
    (pyLower i.itypeName = "epic" → extractEpicKey i = some i.key)
  ∧ (∀ p, pyLower i.itypeName ≠ "epic" → i.parent = some p →
      pyLower p.itypeName = "epic" → extractEpicKey i = some p.key)
  ∧ (pyLower i.itypeName ≠ "epic" →
      (∀ p, i.parent = some p → pyLower p.itypeName ≠ "epic") →
      ((∀ s, i.epicLink = some s → pyStrip s ≠ "" →
          extractEpicKey i = some (pyStrip s))
        ∧ ((i.epicLink = none ∨ ∃ s, i.epicLink = some s ∧ pyStrip s = "") →
          extractEpicKey i = none))) := by
  refine ⟨?_, ?_, ?_⟩
  · intro h
    simp [extractEpicKey, h]
  · intro p h hp hpe
    simp [extractEpicKey, h, hp, hpe]
  · intro h hp
    constructor
    · intro s hs hsne
      cases hip : i.parent with
      | none => simp [extractEpicKey, h, hip, hs, hsne]
      | some p =>
        have := hp p hip
        simp [extractEpicKey, h, hip, this, hs, hsne]
    · rintro (hnone | ⟨s, hs, hsb⟩)
      · cases hip : i.parent with
        | none => simp [extractEpicKey, h, hip, hnone]
        | some p =>
          have := hp p hip
          simp [extractEpicKey, h, hip, this, hnone]
      · cases hip : i.parent with
        | none => simp [extractEpicKey, h, hip, hs, hsb]
        | some p =>
          have := hp p hip
          simp [extractEpicKey, h, hip, this, hs, hsb]

/-- Claim C6 witness: an epic-typed issue resolves to its own key. -/
theorem epic_key_resolution_w : extractEpicKey epicFix = some ("E-1") :=
  (epic_key_resolution epicFix).1 (by decide)

/-- Claim C10 counterexample: an issue with a sprint in the primary
field and a single non-list sprint object in the legacy field has a
non-empty sprint membership, refuting the unconditional reading that
any issue whose legacy field holds a single non-list sprint object
yields zero memberships. -/
theorem legacy_sprint_cex :
    issueLegacyOne.legacySprints =
      SprintField.one { sid := some ("7"), sname := none, sstate := none } ∧
    issueSprints issueLegacyOne ≠ [] := by decide

/-- Claim C10 (amended): the legacy field is consulted only when the
primary field is falsy or yields no normalizable sprint, and when it is
consulted while holding a single non-list sprint object, extraction
yields zero memberships. -/
theorem legacy_sprint_fallback (i : Issue) :
    (sprintFieldTruthy i.sprints = true → primarySprints i ≠ [] →
      issueSprints i = primarySprints i)
  ∧ (∀ v, i.legacySprints = SprintField.one v →
      (sprintFieldTruthy i.sprints = false ∨ primarySprints i = []) →
      issueSprints i = []) := by
  constructor
  · intro h1 h2
    simp [issueSprints, h1, List.isEmpty_eq_false.mpr h2]
  · intro v hv hd
    have hleg : legacySprintList i = [] := by
      simp [legacySprintList, hv]
    rcases hd with h | h
    · simp [issueSprints, h, hleg]
    · simp [issueSprints, h, hleg]

/-- Claim C10 witness: with an absent primary field and a single
non-list legacy sprint object, sprint extraction is empty. -/
theorem legacy_sprint_fallback_w :
    issueSprints { issueLegacyOne with sprints := SprintField.absent } = [] :=
  (legacy_sprint_fallback { issueLegacyOne with sprints := SprintField.absent }).2
    { sid := some ("7"), sname := none, sstate := none } (by decide) (Or.inl (by decide))

theorem latestNudgeGo_cases :
    ∀ (logs : List NudgeLogRow) (acc : Option NudgeLogRow) (t : NudgeLogRow),
      latestNudgeGo acc logs = some t →
      (acc = some t ∨ t ∈ logs) ∧
      (∀ lg ∈ logs, lg.sentAt ≤ t.sentAt) ∧
      (∀ b, acc = some b → b.sentAt ≤ t.sentAt) := by
  intro logs
  induction logs with
  | nil =>
    intro acc t h
    cases acc with
    | none => exact absurd h (by simp [latestNudgeGo])
    | some b =>
      have hb : b = t := by
        have : some b = some t := h
        exact Option.some.injEq b t ▸ (by injection this)
      subst hb
      exact ⟨Or.inl rfl, by simp, fun b2 hb2 => by injection hb2 with h2; rw [h2]⟩
  | cons lg rest ih =>
    intro acc t h
    cases acc with
    | none =>
      have h2 := ih (some lg) t (by simpa [latestNudgeGo] using h)
      refine ⟨?_, ?_, ?_⟩
      · rcases h2.1 with heq | hm
        · right
          injection heq with h3
          rw [← h3]
          exact List.mem_cons_self lg rest
        · right; exact List.mem_cons_of_mem lg hm
      · intro x hx
        rcases List.mem_cons.mp hx with rfl | hx2
        · exact h2.2.2 x rfl
        · exact h2.2.1 x hx2
      · intro b hb
        cases hb
    | some b =>
      have h2 := ih (some (if lg.sentAt > b.sentAt then lg else b)) t
        (by simpa [latestNudgeGo] using h)
      have hc : (if lg.sentAt > b.sentAt then lg else b).sentAt ≤ t.sentAt :=
        h2.2.2 _ rfl
      have hlg : lg.sentAt ≤ t.sentAt := by
        by_cases hgt : lg.sentAt > b.sentAt
        · simpa [hgt] using hc
        · have : b.sentAt ≤ t.sentAt := by simpa [hgt] using hc
          omega
      have hb2 : b.sentAt ≤ t.sentAt := by
        by_cases hgt : lg.sentAt > b.sentAt
        · have : lg.sentAt ≤ t.sentAt := by simpa [hgt] using hc
          omega
        · simpa [hgt] using hc
      refine ⟨?_, ?_, ?_⟩
      · rcases h2.1 with heq | hm
        · by_cases hgt : lg.sentAt > b.sentAt
          · right
            rw [if_pos hgt] at heq
            injection heq with h3
            rw [← h3]
            exact List.mem_cons_self lg rest
          · left
            rw [if_neg hgt] at heq
            exact heq
        · right; exact List.mem_cons_of_mem lg hm
      · intro x hx
        rcases List.mem_cons.mp hx with rfl | hx2
        · exact hlg
        · exact h2.2.1 x hx2
      · intro b2 hb3
        injection hb3 with h4
        rw [h4] at hb2
        exact hb2

theorem tdivMicroPos (d : Int) : 0 < Int.tdiv d 1000000 ↔ 1000000 ≤ d := by
  cases d with
  | ofNat n =>
    have hr : Int.tdiv (Int.ofNat n) 1000000 = Int.ofNat (n / 1000000) := rfl
    rw [hr]
    constructor
    · intro h
      have h2 : 0 < n / 1000000 := Int.ofNat_pos.mp h
      have h3 : 1000000 ≤ n := by
        by_contra hn
        push_neg at hn
        rw [Nat.div_eq_of_lt hn] at h2
        exact absurd h2 (lt_irrefl 0)
      exact Int.ofNat_le.mpr h3
    · intro h
      have hn : 1000000 ≤ n := Int.ofNat_le.mp h
      exact Int.ofNat_pos.mpr (Nat.div_pos hn (by norm_num))
  | negSucc m =>
    have hr : Int.tdiv (Int.negSucc m) 1000000 = -(Int.ofNat ((m + 1) / 1000000)) := rfl
    rw [hr]
    constructor
    · intro h
      have h2 : (0 : Int) ≤ Int.ofNat ((m + 1) / 1000000) :=
        Int.ofNat_nonneg ((m + 1) / 1000000)
      exfalso
      linarith
    · intro h
      exfalso
      have h2 : Int.negSucc m < 0 := Int.negSucc_lt_zero m
      linarith

/-- Claim C5 counterexample: with one nudge log sent at time 0 and a
24-hour cooldown, half a second before expiry the exact expiry instant
is still in the future, yet the code reports the cooldown inactive
(int(total_seconds()) truncates the sub-second remainder to 0), so
cooldown_active is not equivalent to expires_at > now. -/
theorem nudge_cooldown_cex :
    (nudgeState [{ sentAt := 0 }] 24 86399500000).1 = false ∧
    ((0 : Int) + 24 * 3600 * 1000000 > 86399500000) := by
  constructor
  · rfl
  · decide

/-- Claim C5 (amended): with no NudgeLog the state is inactive with
zero seconds and null last_sent_at; otherwise, taking the log with the
maximal sent timestamp and expires_at = sent_at + cooldown window,
cooldown_active is true iff at least one full second remains before
expires_at (the truncated whole-second difference is positive), and
seconds_remaining is that truncated difference clamped to zero. -/
theorem nudge_state_amended (logs : List NudgeLogRow) (hours now : Int) :
    (latestNudgeLog logs = none → nudgeState logs hours now = (false, 0, none))
  ∧ (∀ top, latestNudgeLog logs = some top →
      (top ∈ logs ∧ (∀ lg ∈ logs, lg.sentAt ≤ top.sentAt))
      ∧ ((nudgeState logs hours now).1 = true ↔
          top.sentAt + hours * 3600 * 1000000 ≥ now + 1000000)
      ∧ (nudgeState logs hours now).2.1 =
          max (Int.tdiv (top.sentAt + hours * 3600 * 1000000 - now) 1000000) 0
      ∧ (nudgeState logs hours now).2.2 = some top.sentAt) := by
  constructor
  · intro h
    simp [nudgeState, h]
  · intro top htop
    have hcases := latestNudgeGo_cases logs none top htop
    have hmem : top ∈ logs := by
      rcases hcases.1 with heq | hm
      · cases heq
      · exact hm
    refine ⟨⟨hmem, hcases.2.1⟩, ?_, ?_, ?_⟩
    · unfold nudgeState
      rw [htop]
      simp only [decide_eq_true_eq]
      rw [tdivMicroPos]
      omega
    · unfold nudgeState
      rw [htop]
    · unfold nudgeState
      rw [htop]

/-- Claim C5 witness: one log sent at 0 with a 24-hour window, queried
one second in: the cooldown is active and last_sent_at is reported. -/
theorem nudge_state_amended_w :
    (nudgeState [{ sentAt := 0 }] 24 1000000).1 = true ∧
    (nudgeState [{ sentAt := 0 }] 24 1000000).2.2 = some 0 := by
  have h := (nudge_state_amended [{ sentAt := 0 }] 24 1000000).2
    { sentAt := 0 } (by rfl)
  exact ⟨h.2.1.mpr (by decide), h.2.2.2⟩

theorem mem_alUpsert {α : Type} {l : List (String × α)} {k : String} {v : α}
    {p : String × α} (hp : p ∈ alUpsert l k v) : p = (k, v) ∨ p ∈ l := by
  unfold alUpsert at hp
  by_cases hc : alContains l k = true
  · rw [if_pos hc] at hp
    rcases List.mem_map.mp hp with ⟨q, hq, hpq⟩
    by_cases hk : (q.1 == k) = true
    · left; rw [← hpq]; simp [hk]
    · right; rw [← hpq]; simp only [hk, Bool.false_eq_true, if_neg, not_false_iff]
      exact hq
  · rw [if_neg hc] at hp
    rcases List.mem_append.mp hp with h | h
    · right; exact h
    · left; simpa using h

theorem alUpsert_hasKey {α : Type} (l : List (String × α)) (k : String) (v : α) :
    ∃ p ∈ alUpsert l k v, p.1 = k := by
  unfold alUpsert
  by_cases hc : alContains l k = true
  · rw [if_pos hc]
    unfold alContains at hc
    rcases List.any_eq_true.mp hc with ⟨q, hq, hqk⟩
    exact ⟨(k, v), List.mem_map.mpr ⟨q, hq, by simp [hqk]⟩, rfl⟩
  · rw [if_neg hc]
    exact ⟨(k, v), List.mem_append_right _ (List.mem_singleton_self _), rfl⟩

theorem alUpsert_keyPreserved {α : Type} {l : List (String × α)} {k0 : String}
    (h : ∃ p ∈ l, p.1 = k0) (k : String) (v : α) :
    ∃ p ∈ alUpsert l k v, p.1 = k0 := by
  rcases h with ⟨q, hq, hk0⟩
  unfold alUpsert
  by_cases hc : alContains l k = true
  · rw [if_pos hc]
    by_cases hqk : (q.1 == k) = true
    · refine ⟨(k, v), List.mem_map.mpr ⟨q, hq, by simp [hqk]⟩, ?_⟩
      have h2 : q.1 = k := beq_iff_eq.mp hqk
      rw [← hk0, ← h2]
    · refine ⟨q, List.mem_map.mpr ⟨q, hq, ?_⟩, hk0⟩
      simp only [hqk, Bool.false_eq_true, if_neg, not_false_iff]
  · rw [if_neg hc]
    exact ⟨q, List.mem_append_left _ hq, hk0⟩

theorem fpFold_mem :
    ∀ (issues : List Issue) (acc : List (String × String)) (p : String × String),
      p ∈ issues.foldl fpStep acc →
      p ∈ acc ∨ ∃ i ∈ issues,
        pyStrip i.key ≠ "" ∧ p = (pyStrip i.key, issueVersionToken i) := by
  intro issues
  induction issues with
  | nil => intro acc p hp; exact Or.inl hp
  | cons i rest ih =>
    intro acc p hp
    rw [List.foldl_cons] at hp
    rcases ih (fpStep acc i) p hp with hin | ⟨j, hj, hjk, hjp⟩
    · unfold fpStep at hin
      by_cases hk : (pyStrip i.key == "") = true
      · rw [if_pos hk] at hin
        exact Or.inl hin
      · rw [if_neg hk] at hin
        rcases mem_alUpsert hin with heq | hacc
        · exact Or.inr ⟨i, List.mem_cons_self i rest,
            fun hc => hk (beq_iff_eq.mpr hc), heq⟩
        · exact Or.inl hacc
    · exact Or.inr ⟨j, List.mem_cons_of_mem i hj, hjk, hjp⟩

theorem fpFold_keyPreserved :
    ∀ (issues : List Issue) (acc : List (String × String)) (k0 : String),
      (∃ p ∈ acc, p.1 = k0) → ∃ p ∈ issues.foldl fpStep acc, p.1 = k0 := by
  intro issues
  induction issues with
  | nil => intro acc k0 h; exact h
  | cons i rest ih =>
    intro acc k0 h
    rw [List.foldl_cons]
    refine ih (fpStep acc i) k0 ?_
    unfold fpStep
    by_cases hk : (pyStrip i.key == "") = true
    · rw [if_pos hk]; exact h
    · rw [if_neg hk]
      exact alUpsert_keyPreserved h _ _

theorem fpFold_complete :
    ∀ (issues : List Issue) (acc : List (String × String)) (i : Issue),
      i ∈ issues → pyStrip i.key ≠ "" →
      ∃ p ∈ issues.foldl fpStep acc, p.1 = pyStrip i.key := by
  intro issues
  induction issues with
  | nil => intro acc i hi; cases hi
  | cons j rest ih =>
    intro acc i hi hk
    rw [List.foldl_cons]
    rcases List.mem_cons.mp hi with rfl | hi2
    · refine fpFold_keyPreserved rest (fpStep acc i) (pyStrip i.key) ?_
      unfold fpStep
      rw [if_neg (fun hc => hk (beq_iff_eq.mp hc))]
      exact alUpsert_hasKey _ _ _
    · exact ih (fpStep acc j) i hi2 hk

/-- Claim C7 counterexample: an issue whose updated field is the
non-blank string " 2024-01-01 " gets the stripped token "2024-01-01",
not the field value itself, refuting the claim that the token is the
updated field. -/
theorem version_token_cex :
    issuePaddedUpd.updated = UpdatedVal.str (" 2024-01-01 ") ∧
    pyStrip (" 2024-01-01 ") ≠ "" ∧
    issueVersionToken issuePaddedUpd ≠ " 2024-01-01 " := by
  refine ⟨rfl, by decide, by decide⟩

/-- Claim C7 (amended): the version token is (1) the trimmed updated
field when it is a string that is non-blank after trimming, else (2)
the str() form of a numeric updated field, else (3) the version
attribute when present, else (4) the synthetic fallback token
status|resolution|summary prefixed with fallback:, and the fingerprint
maps each trimmed non-empty issue key to its issue's token, with
entries sorted ascending by key. -/
theorem version_token_amended :
    (∀ i : Issue,
      (∀ v, i.updated = UpdatedVal.str v → pyStrip v ≠ "" →
        issueVersionToken i = pyStrip v)
      ∧ (∀ n, i.updated = UpdatedVal.num n → issueVersionToken i = toString n)
      ∧ ((i.updated = UpdatedVal.absent ∨
          ∃ v, i.updated = UpdatedVal.str v ∧ pyStrip v = "") →
          (∀ w, i.version = some w → issueVersionToken i = w)
          ∧ (i.version = none →
              issueVersionToken i =
                "fallback:" ++ (i.statusName.getD ("")) ++ "|" ++
                  (i.resolutionName.getD ("")) ++ "|" ++ i.summary)))
  ∧ (∀ issues : List Issue,
      List.Pairwise (fun a b : String × String => strLeB a.1 b.1 = true)
        (buildIssueVersions issues)
      ∧ (∀ p ∈ buildIssueVersions issues,
          p.1 ≠ "" ∧ ∃ i ∈ issues,
            pyStrip i.key = p.1 ∧ issueVersionToken i = p.2)
      ∧ (∀ i ∈ issues, pyStrip i.key ≠ "" →
          ∃ p ∈ buildIssueVersions issues, p.1 = pyStrip i.key)) := by
  constructor
  · intro i
    refine ⟨?_, ?_, ?_⟩
    · intro v hv hne
      simp [issueVersionToken, hv, hne]
    · intro n hn
      simp [issueVersionToken, hn]
    · intro hu
      constructor
      · intro w hw
        rcases hu with h | ⟨v, hv, hvb⟩
        · simp [issueVersionToken, h, versionTokenTail, hw]
        · simp [issueVersionToken, hv, hvb, versionTokenTail, hw]
      · intro hw
        rcases hu with h | ⟨v, hv, hvb⟩
        · simp [issueVersionToken, h, versionTokenTail, hw]
        · simp [issueVersionToken, hv, hvb, versionTokenTail, hw]
  · intro issues
    refine ⟨?_, ?_, ?_⟩
    · exact pairwise_insSort (fun a b : String × String => strLeB a.1 b.1)
        (fun a b => strLeB_total a.1 b.1)
        (fun a b c => strLeB_trans a.1 b.1 c.1) _
    · intro p hp
      have hp2 : p ∈ issues.foldl fpStep [] := (mem_insSort _).mp hp
      rcases fpFold_mem issues [] p hp2 with h | ⟨i, hi, hik, hip⟩
      · cases h
      · subst hip
        exact ⟨hik, i, hi, rfl, rfl⟩
    · intro i hi hk
      rcases fpFold_complete issues [] i hi hk with ⟨p, hp, hpk⟩
      exact ⟨p, (mem_insSort _).mpr hp, hpk⟩

/-- Claim C7 witness: a padded updated string yields its trimmed form
as the token, and a one-issue batch yields a one-entry fingerprint
keyed by the issue key. -/
theorem version_token_amended_w :
    issueVersionToken issuePaddedUpd = "2024-01-01" ∧
    ∃ p ∈ buildIssueVersions [issuePaddedUpd], p.1 = "U-1" := by
  constructor
  · have h := (version_token_amended.1 issuePaddedUpd).1 (" 2024-01-01 ")
      rfl (by decide)
    rw [h]
    decide
  · have h := (version_token_amended.2 [issuePaddedUpd]).2.2 issuePaddedUpd
      (List.mem_singleton_self _) (by decide)
    simpa using h

theorem teamMetaStep_eq (acc : List String × List String) (label : String) :
    teamMetaStep acc label =
      ((match labelTeamKey label with
        | some k => insertSet k acc.1
        | none => acc.1),
       if labelWarns label then insertSet (pyStrip label) acc.2 else acc.2) := by
  unfold teamMetaStep labelTeamKey labelWarns
  by_cases h1 : (pyStrip label == "") = true
  · simp [h1]
  · simp only [h1, Bool.false_eq_true, if_neg, not_false_iff]
    by_cases h2 : strStarts (pyLower (pyStrip label)) squadPfx = true
    · simp only [h2, if_pos]
      by_cases h3 :
          pyStrip (strDrop (pyLower (pyStrip label)) squadPfx.length) = ""
      · simp [h3]
      · simp [h3]
    · simp only [h2, Bool.false_eq_true, if_neg, not_false_iff]
      by_cases h4 : strStarts (pyLower (pyStrip label)) ("squad") = true
      · simp [h4]
      · simp [h4]

theorem teamFold_inv :
    ∀ (labs : List String) (acc : List String × List String),
      (∀ k, k ∈ (labs.foldl teamMetaStep acc).1 ↔
        k ∈ acc.1 ∨ ∃ lab ∈ labs, labelTeamKey lab = some k)
      ∧ (∀ w, w ∈ (labs.foldl teamMetaStep acc).2 ↔
          w ∈ acc.2 ∨ ∃ lab ∈ labs, labelWarns lab = true ∧ w = pyStrip lab)
      ∧ (acc.2.Nodup → (labs.foldl teamMetaStep acc).2.Nodup) := by
  intro labs
  induction labs with
  | nil =>
    intro acc
    refine ⟨?_, ?_, ?_⟩
    · intro k; simp
    · intro w; simp
    · exact fun h => h
  | cons lab rest ih =>
    intro acc
    rw [List.foldl_cons]
    have hstep := teamMetaStep_eq acc lab
    refine ⟨?_, ?_, ?_⟩
    · intro k
      rw [(ih (teamMetaStep acc lab)).1 k, hstep]
      constructor
      · rintro (hm | ⟨l2, hl2, hk2⟩)
        · cases hkey : labelTeamKey lab with
          | none =>
            rw [hkey] at hm
            exact Or.inl hm
          | some k2 =>
            rw [hkey] at hm
            rcases mem_insertSet.mp hm with rfl | hm2
            · exact Or.inr ⟨lab, List.mem_cons_self lab rest, hkey⟩
            · exact Or.inl hm2
        · exact Or.inr ⟨l2, List.mem_cons_of_mem lab hl2, hk2⟩
      · rintro (hm | ⟨l2, hl2, hk2⟩)
        · left
          cases hkey : labelTeamKey lab with
          | none => exact hm
          | some k2 => exact mem_insertSet.mpr (Or.inr hm)
        · rcases List.mem_cons.mp hl2 with rfl | hl3
          · left
            rw [hk2]
            exact mem_insertSet.mpr (Or.inl rfl)
          · exact Or.inr ⟨l2, hl3, hk2⟩
    · intro w
      rw [(ih (teamMetaStep acc lab)).2.1 w, hstep]
      constructor
      · rintro (hm | ⟨l2, hl2, hw2, hw3⟩)
        · by_cases hwl : labelWarns lab = true
          · rw [if_pos hwl] at hm
            rcases mem_insertSet.mp hm with rfl | hm2
            · exact Or.inr ⟨lab, List.mem_cons_self lab rest, hwl, rfl⟩
            · exact Or.inl hm2
          · rw [if_neg hwl] at hm
            exact Or.inl hm
        · exact Or.inr ⟨l2, List.mem_cons_of_mem lab hl2, hw2, hw3⟩
      · rintro (hm | ⟨l2, hl2, hw2, hw3⟩)
        · left
          by_cases hwl : labelWarns lab = true
          · rw [if_pos hwl]; exact mem_insertSet.mpr (Or.inr hm)
          · rw [if_neg hwl]; exact hm
        · rcases List.mem_cons.mp hl2 with rfl | hl3
          · left
            rw [if_pos hw2, hw3]
            exact mem_insertSet.mpr (Or.inl rfl)
          · exact Or.inr ⟨l2, hl3, hw2, hw3⟩
    · intro hnd
      refine (ih (teamMetaStep acc lab)).2.2 ?_
      rw [hstep]
      by_cases hwl : labelWarns lab = true
      · rw [if_pos hwl]; exact nodup_insertSet hnd
      · rw [if_neg hwl]; exact hnd

theorem mem_sortedStrings {x : String} {l : List String} :
    x ∈ sortedStrings l ↔ x ∈ l :=
  mem_insSort strLeB

/-- Claim C4: team/label extraction: the team-key set holds exactly the
keys squad_ plus a lower-cased non-empty trimmed remainder of a label
whose trimmed lower-cased form starts with squad_; labels with an empty
remainder after the prefix, and labels starting with squad but not
squad_, contribute their trimmed raw form to the warnings; the missing
flag is true iff the team-key set is empty; the warnings are a sorted
list of distinct strings. -/
theorem team_metadata (issues : List Issue) :
    (∀ k, k ∈ (extractTeamMetadata issues).1 ↔
      ∃ i ∈ issues, ∃ lab ∈ i.labels, labelTeamKey lab = some k)
  ∧ ((extractTeamMetadata issues).2.1 = true ↔ (extractTeamMetadata issues).1 = [])
  ∧ (∀ w, w ∈ (extractTeamMetadata issues).2.2 ↔
      ∃ i ∈ issues, ∃ lab ∈ i.labels, labelWarns lab = true ∧ w = pyStrip lab)
  ∧ List.Pairwise (fun a b => strLeB a b = true) (extractTeamMetadata issues).2.2
  ∧ (extractTeamMetadata issues).2.2.Nodup := by
  have hconv : issues.foldl (fun a i => i.labels.foldl teamMetaStep a) ([], []) =
      ((issues.map (fun i => i.labels)).flatten).foldl teamMetaStep ([], []) := by
    rw [List.foldl_flatten, List.foldl_map]
  have hinv := teamFold_inv ((issues.map (fun i => i.labels)).flatten) ([], [])
  have h1 : (extractTeamMetadata issues).1 =
      (((issues.map (fun i => i.labels)).flatten).foldl teamMetaStep ([], [])).1 := by
    unfold extractTeamMetadata
    rw [hconv]
  have h2 : (extractTeamMetadata issues).2.1 =
      (((issues.map (fun i => i.labels)).flatten).foldl teamMetaStep
        ([], [])).1.isEmpty := by
    unfold extractTeamMetadata
    rw [hconv]
  have h3 : (extractTeamMetadata issues).2.2 =
      sortedStrings
        (((issues.map (fun i => i.labels)).flatten).foldl teamMetaStep ([], [])).2 := by
    unfold extractTeamMetadata
    rw [hconv]
  refine ⟨?_, ?_, ?_, ?_, ?_⟩
  · intro k
    rw [h1, hinv.1 k]
    constructor
    · rintro (h | ⟨lab, hlab, hk⟩)
      · exact absurd h (List.not_mem_nil k)
      · rcases List.mem_flatten.mp hlab with ⟨l, hl, hlab2⟩
        rcases List.mem_map.mp hl with ⟨i, hi, rfl⟩
        exact ⟨i, hi, lab, hlab2, hk⟩
    · rintro ⟨i, hi, lab, hlab, hk⟩
      right
      exact ⟨lab, List.mem_flatten.mpr ⟨i.labels, List.mem_map.mpr ⟨i, hi, rfl⟩, hlab⟩, hk⟩
  · rw [h2, h1]
    exact List.isEmpty_iff
  · intro w
    rw [h3, mem_sortedStrings, hinv.2.1 w]
    constructor
    · rintro (h | ⟨lab, hlab, hw, hw2⟩)
      · exact absurd h (List.not_mem_nil w)
      · rcases List.mem_flatten.mp hlab with ⟨l, hl, hlab2⟩
        rcases List.mem_map.mp hl with ⟨i, hi, rfl⟩
        exact ⟨i, hi, lab, hlab2, hw, hw2⟩
    · rintro ⟨i, hi, lab, hlab, hw, hw2⟩
      right
      exact ⟨lab,
        List.mem_flatten.mpr ⟨i.labels, List.mem_map.mpr ⟨i, hi, rfl⟩, hlab⟩, hw, hw2⟩
  · rw [h3]
    exact pairwise_insSort strLeB strLeB_total strLeB_trans _
  · rw [h3]
    exact ((insSort_perm strLeB _).nodup_iff).mpr (hinv.2.2 List.nodup_nil)

/-- The ordering the specification describes for by_team rows:
descending compliance percentage, then descending compliant count,
then descending total count, then ascending team key. -/
def teamRowRel (a b : TeamRow) : Prop :=
  b.pct < a.pct ∨
    (a.pct = b.pct ∧
      (b.compliantEpics < a.compliantEpics ∨
        (a.compliantEpics = b.compliantEpics ∧
          (b.totalEpics < a.totalEpics ∨
            (a.totalEpics = b.totalEpics ∧ strLeB a.team b.team = true)))))

theorem teamRowLeB_iff (a b : TeamRow) :
    teamRowLeB a b = true ↔ teamRowRel a b := by
  unfold teamRowLeB teamRowRel
  by_cases h1 : b.pct < a.pct
  · simp [h1]
  · by_cases h2 : a.pct < b.pct
    · simp [h1, h2, ne_of_lt h2]
    · have hpe : a.pct = b.pct := le_antisymm (not_lt.mp h1) (not_lt.mp h2)
      simp only [h1, h2, if_neg, not_false_iff, hpe, true_and, lt_self_iff_false,
        false_or]
      by_cases h3 : b.compliantEpics < a.compliantEpics
      · simp [h3]
      · by_cases h4 : a.compliantEpics < b.compliantEpics
        · simp [h3, h4]
          omega
        · have hce : a.compliantEpics = b.compliantEpics := by omega
          simp only [h3, h4, if_neg, not_false_iff, hce, true_and,
            lt_self_iff_false, false_or]
          by_cases h5 : b.totalEpics < a.totalEpics
          · simp [h5]
          · by_cases h6 : a.totalEpics < b.totalEpics
            · simp [h5, h6]
              omega
            · have hte : a.totalEpics = b.totalEpics := by omega
              simp [h5, h6, hte]

theorem teamRowLeB_total (a b : TeamRow) :
    teamRowLeB a b = true ∨ teamRowLeB b a = true := by
  rw [teamRowLeB_iff, teamRowLeB_iff]
  unfold teamRowRel
  rcases lt_trichotomy a.pct b.pct with h | h | h
  · right; left; exact h
  · rcases lt_trichotomy a.compliantEpics b.compliantEpics with h2 | h2 | h2
    · right; right; exact ⟨h.symm, Or.inl h2⟩
    · rcases lt_trichotomy a.totalEpics b.totalEpics with h3 | h3 | h3
      · right; right; exact ⟨h.symm, Or.inr ⟨h2.symm, Or.inl h3⟩⟩
      · rcases strLeB_total a.team b.team with h4 | h4
        · left; right; exact ⟨h, Or.inr ⟨h2, Or.inr ⟨h3, h4⟩⟩⟩
        · right; right; exact ⟨h.symm, Or.inr ⟨h2.symm, Or.inr ⟨h3.symm, h4⟩⟩⟩
      · left; right; exact ⟨h, Or.inr ⟨h2, Or.inl h3⟩⟩
    · left; right; exact ⟨h, Or.inl h2⟩
  · left; left; exact h

theorem teamRowRel_trans (a b c : TeamRow) :
    teamRowRel a b → teamRowRel b c → teamRowRel a c := by
  rintro (h1 | ⟨he1, h1⟩) (h2 | ⟨he2, h2⟩)
  · left; exact lt_trans h2 h1
  · left; rw [← he2]; exact h1
  · left; rw [he1]; exact h2
  · right
    refine ⟨he1.trans he2, ?_⟩
    rcases h1 with h1 | ⟨hc1, h1⟩ <;> rcases h2 with h2 | ⟨hc2, h2⟩
    · left; omega
    · left; omega
    · left; omega
    · right
      refine ⟨by omega, ?_⟩
      rcases h1 with h1 | ⟨ht1, h1⟩ <;> rcases h2 with h2 | ⟨ht2, h2⟩
      · left; omega
      · left; omega
      · left; omega
      · right; exact ⟨by omega, strLeB_trans _ _ _ h1 h2⟩

theorem teamRowLeB_trans (a b c : TeamRow) :
    teamRowLeB a b = true → teamRowLeB b c = true → teamRowLeB a c = true := by
  rw [teamRowLeB_iff, teamRowLeB_iff, teamRowLeB_iff]
  exact teamRowRel_trans a b c

/-- Claim C8: per-team ranking determinism: the by_team rows are sorted
descending by compliance percentage, then descending compliant count,
then descending total count, then ascending team key, each row's rank
is its 1-based position, and the rows are a permutation of the counter
rows they were built from. -/
theorem team_ranking (evaluated : List (List String × EpicEvalRes)) :
    List.Pairwise (fun a b : Nat × TeamRow => teamRowRel a.2 b.2)
      (buildTeamMetrics evaluated)
  ∧ (∀ j, ∀ hj : j < (buildTeamMetrics evaluated).length,
      ((buildTeamMetrics evaluated).get ⟨j, hj⟩).1 = j + 1)
  ∧ ((buildTeamMetrics evaluated).map (fun p => p.2)).Perm
      ((teamCounters evaluated).map teamRowOf) := by
  have hsorted : (insSort teamRowLeB ((teamCounters evaluated).map teamRowOf)).Pairwise
      (fun a b => teamRowLeB a b = true) :=
    pairwise_insSort teamRowLeB teamRowLeB_total teamRowLeB_trans _
  refine ⟨?_, ?_, ?_⟩
  · unfold buildTeamMetrics
    have h2 : (insSort teamRowLeB ((teamCounters evaluated).map teamRowOf)).enum.Pairwise
        (fun x y : Nat × TeamRow => teamRowLeB x.2 y.2 = true) := by
      have h3 := hsorted
      rw [← List.enum_map_snd
        (insSort teamRowLeB ((teamCounters evaluated).map teamRowOf))] at h3
      exact List.pairwise_map.mp h3
    exact List.pairwise_map.mpr (h2.imp (fun h => (teamRowLeB_iff _ _).mp h))
  · intro j hj
    unfold buildTeamMetrics at hj ⊢
    rw [List.get_eq_getElem, List.getElem_map, List.getElem_enum]
  · unfold buildTeamMetrics
    rw [List.map_map]
    have h5 : ((fun p : Nat × TeamRow => p.2) ∘ fun p : Nat × TeamRow => (p.1 + 1, p.2))
        = fun p : Nat × TeamRow => p.2 := rfl
    rw [h5, List.enum_map_snd]
    exact insSort_perm teamRowLeB _

theorem charLe_iff (a b : Char) : a ≤ b ↔ a.toNat ≤ b.toNat :=
  Char.le_def.trans UInt32.le_def

theorem toNat_ofNat_valid (n : Nat) (h : n.isValidChar) : (Char.ofNat n).toNat = n := by
  unfold Char.ofNat
  rw [dif_pos h]
  simp [Char.toNat, Char.ofNatAux, UInt32.toNat]

theorem lowerChar_toNat (c : Char) :
    (lowerChar c).toNat =
      if 65 ≤ c.toNat ∧ c.toNat ≤ 90 then c.toNat + 32 else c.toNat := by
  unfold lowerChar
  by_cases h : 65 ≤ c.toNat ∧ c.toNat ≤ 90
  · rw [if_pos h, if_pos h]
    have hv : (c.toNat + 32).isValidChar := by
      left
      omega
    exact toNat_ofNat_valid _ hv
  · rw [if_neg h, if_neg h]

theorem lowerChar_notAZ (c : Char) :
    (decide ('A' ≤ lowerChar c) && decide (lowerChar c ≤ 'Z')) = false := by
  have h1 := lowerChar_toNat c
  by_cases h : 65 ≤ c.toNat ∧ c.toNat ≤ 90
  · rw [if_pos h] at h1
    have h2 : ¬ (lowerChar c ≤ 'Z') := by
      rw [charLe_iff]
      show ¬ (lowerChar c).toNat ≤ 90
      omega
    simp [h2]
  · rw [if_neg h] at h1
    by_cases h2 : 65 ≤ c.toNat
    · have h3 : ¬ (lowerChar c ≤ 'Z') := by
        rw [charLe_iff]
        show ¬ (lowerChar c).toNat ≤ 90
        omega
      simp [h3]
    · have h3 : ¬ ('A' ≤ lowerChar c) := by
        rw [charLe_iff]
        show ¬ ('A').toNat ≤ (lowerChar c).toNat
        have h4 : ('A').toNat = 65 := rfl
        omega
      simp [h3]

theorem alnum_agree_on_lower (c : Char) :
    isAlnumChar (lowerChar c) = isCatAlnum (lowerChar c) := by
  unfold isAlnumChar isCatAlnum
  rw [lowerChar_notAZ c]
  cases haz : (decide ( 'a' ≤ lowerChar c) && decide (lowerChar c ≤ 'z')) <;>
    cases h09 : (decide ( '0' ≤ lowerChar c) && decide (lowerChar c ≤ '9')) <;> rfl

theorem ws_char_facts (c : Char) (h : Char.isWhitespace c = true) :
    isCatAlnum c = false ∧ lowerChar c = c := by
  have h2 : ((c = ' ' ∨ c = '\t') ∨ c = '\r') ∨ c = '\n' := by
    simpa [Char.isWhitespace] using h
  rcases h2 with ((rfl | rfl) | rfl) | rfl <;> exact ⟨by decide, by decide⟩

theorem collapseRuns_congr (p q : Char → Bool) :
    ∀ (l : List Char), (∀ c ∈ l, p c = q c) → ∀ b,
      collapseRuns p b l = collapseRuns q b l := by
  intro l
  induction l with
  | nil => intro _ b; rfl
  | cons c r ih =>
    intro h b
    have hc : p c = q c := h c (List.mem_cons_self c r)
    have hr : ∀ d ∈ r, p d = q d := fun d hd => h d (List.mem_cons_of_mem c hd)
    unfold collapseRuns
    rw [← hc]
    by_cases hpc : p c = true
    · rw [if_pos hpc, if_pos hpc, ih hr false]
    · rw [if_neg hpc, if_neg hpc]
      cases b
      · rw [if_neg (by simp), if_neg (by simp), ih hr true]
      · rw [if_pos rfl, if_pos rfl, ih hr true]

theorem stripTrail_nil : stripTrail [] = [] := rfl

theorem stripTrail_cons (c : Char) (x : List Char) :
    stripTrail (c :: x) =
      if stripTrail x = [] then (if c = '_' then [] else [c])
      else c :: stripTrail x := by
  unfold stripTrail
  rw [List.reverse_cons, List.dropWhile_append]
  by_cases hx : (x.reverse.dropWhile (fun d => d == '_')).isEmpty = true
  · rw [if_pos hx]
    have hx2 : (x.reverse.dropWhile (fun d => d == '_')).reverse = [] := by
      rw [List.isEmpty_iff.mp hx]
      rfl
    rw [if_pos hx2]
    by_cases hc : c = '_'
    · rw [if_pos hc]
      subst hc
      rfl
    · rw [if_neg hc]
      have hc2 : (c == '_') = false := by
        simp [hc]
      simp [List.dropWhile, hc2]
  · rw [if_neg hx]
    have hx2 : ¬ (x.reverse.dropWhile (fun d => d == '_')).reverse = [] := by
      intro h
      rw [List.reverse_eq_nil_iff] at h
      rw [h] at hx
      exact hx rfl
    rw [if_neg hx2, List.reverse_append]
    rfl

theorem stripTrail_cons_ne (c : Char) (x : List Char) (hc : c ≠ '_') :
    stripTrail (c :: x) = c :: stripTrail x := by
  rw [stripTrail_cons]
  by_cases hx : stripTrail x = []
  · rw [if_pos hx, if_neg hc, hx]
  · rw [if_neg hx]

theorem stripUnder_cons_underscore (x : List Char) :
    stripUnder ('_' :: x) = stripUnder x := by
  unfold stripUnder
  rw [stripTrail_cons]
  by_cases hx : stripTrail x = []
  · rw [if_pos hx, if_pos rfl, hx]
  · rw [if_neg hx]
    unfold stripLead
    rw [List.dropWhile_cons]
    simp

theorem collapse_allfail_true (p : Char → Bool) :
    ∀ (w : List Char), (∀ c ∈ w, p c = false) → collapseRuns p true w = [] := by
  intro w
  induction w with
  | nil => intro _; rfl
  | cons c r ih =>
    intro h
    unfold collapseRuns
    rw [if_neg (by rw [h c (List.mem_cons_self c r)]; simp), if_pos rfl]
    exact ih (fun d hd => h d (List.mem_cons_of_mem c hd))

theorem collapse_true_false (p : Char → Bool) (l : List Char) :
    stripUnder (collapseRuns p true l) = stripUnder (collapseRuns p false l) := by
  cases l with
  | nil => rfl
  | cons c r =>
    unfold collapseRuns
    by_cases hc : p c = true
    · rw [if_pos hc, if_pos hc]
    · rw [if_neg hc, if_neg hc, if_pos rfl, if_neg (by simp)]
      rw [stripUnder_cons_underscore]

theorem collapse_dropFront (p : Char → Bool) :
    ∀ (w m : List Char), (∀ c ∈ w, p c = false) →
      stripUnder (collapseRuns p false (w ++ m)) =
        stripUnder (collapseRuns p false m) := by
  intro w
  induction w with
  | nil => intro m _; rfl
  | cons c w2 ih =>
    intro m h
    have hc0 : p c = false := h c (List.mem_cons_self c w2)
    have hstep : collapseRuns p false (c :: (w2 ++ m)) =
        '_' :: collapseRuns p true (w2 ++ m) := by
      simp [collapseRuns, hc0]
    rw [List.cons_append, hstep, stripUnder_cons_underscore, collapse_true_false]
    exact ih m (fun d hd => h d (List.mem_cons_of_mem c hd))

theorem collapse_dropBack (p : Char → Bool) (hpu : p '_' = false) :
    ∀ (m w : List Char) (b : Bool), (∀ c ∈ w, p c = false) →
      stripTrail (collapseRuns p b (m ++ w)) = stripTrail (collapseRuns p b m) := by
  intro m
  induction m with
  | nil =>
    intro w b h
    rw [List.nil_append]
    cases b
    · cases w with
      | nil => rfl
      | cons c r =>
        unfold collapseRuns
        rw [if_neg (by rw [h c (List.mem_cons_self c r)]; simp), if_neg (by simp)]
        rw [collapse_allfail_true p r (fun d hd => h d (List.mem_cons_of_mem c hd))]
        rfl
    · rw [collapse_allfail_true p w h]
      rfl
  | cons c m2 ih =>
    intro w b h
    rw [List.cons_append]
    unfold collapseRuns
    by_cases hc : p c = true
    · rw [if_pos hc, if_pos hc]
      have hcne : c ≠ '_' := by
        intro hceq
        rw [hceq, hpu] at hc
        cases hc
      rw [stripTrail_cons_ne c _ hcne, stripTrail_cons_ne c _ hcne, ih w false h]
    · cases b
      · rw [if_neg hc, if_neg hc, if_neg (by simp), if_neg (by simp)]
        rw [stripTrail_cons, stripTrail_cons, ih w true h]
      · rw [if_neg hc, if_neg hc, if_pos rfl, if_pos rfl]
        exact ih w true h

theorem trim_decomp (l : List Char) :
    ∃ w1 w2 : List Char,
      (∀ c ∈ w1, Char.isWhitespace c = true) ∧
      (∀ c ∈ w2, Char.isWhitespace c = true) ∧
      l = w1 ++ (trimChars l ++ w2) := by
  refine ⟨l.takeWhile Char.isWhitespace,
    ((l.dropWhile Char.isWhitespace).reverse.takeWhile Char.isWhitespace).reverse,
    ?_, ?_, ?_⟩
  · intro c hc
    exact List.mem_takeWhile_imp hc
  · intro c hc
    rw [List.mem_reverse] at hc
    exact List.mem_takeWhile_imp hc
  · have h1 := List.takeWhile_append_dropWhile Char.isWhitespace l
    have h2 := List.takeWhile_append_dropWhile Char.isWhitespace
      (l.dropWhile Char.isWhitespace).reverse
    have h3 : l.dropWhile Char.isWhitespace =
        trimChars l ++
          ((l.dropWhile Char.isWhitespace).reverse.takeWhile Char.isWhitespace).reverse := by
      unfold trimChars
      calc l.dropWhile Char.isWhitespace
          = (l.dropWhile Char.isWhitespace).reverse.reverse := by
            rw [List.reverse_reverse]
        _ = ((l.dropWhile Char.isWhitespace).reverse.takeWhile Char.isWhitespace ++
              (l.dropWhile Char.isWhitespace).reverse.dropWhile Char.isWhitespace).reverse := by
            rw [h2]
        _ = _ := by
            rw [List.reverse_append]
    calc l = l.takeWhile Char.isWhitespace ++ l.dropWhile Char.isWhitespace := h1.symm
      _ = _ := congrArg (fun x => List.takeWhile Char.isWhitespace l ++ x) h3

theorem map_id_of_fix {f : Char → Char} :
    ∀ l : List Char, (∀ c ∈ l, f c = c) → l.map f = l := by
  intro l
  induction l with
  | nil => intro _; rfl
  | cons c r ih =>
    intro h
    rw [List.map_cons, h c (List.mem_cons_self c r),
      ih (fun d hd => h d (List.mem_cons_of_mem c hd))]

theorem dod_category_core_eq (s : String) :
    extractDodCategory s = dodCategorySpec s := by
  have hkey :
      stripUnder (collapseRuns isAlnumChar false
        ((pyLower (strDrop s dodPfx.data.length)).data)) =
      stripUnder (collapseRuns isCatAlnum false
        ((pyLower (pyStrip (strDrop s dodPfx.data.length))).data)) := by
    show stripUnder (collapseRuns isAlnumChar false
          ((s.data.drop dodPfx.data.length).map lowerChar)) =
        stripUnder (collapseRuns isCatAlnum false
          ((trimChars (s.data.drop dodPfx.data.length)).map lowerChar))
    rcases trim_decomp (s.data.drop dodPfx.data.length) with ⟨w1, w2, hw1, hw2, hdec⟩
    have hcls :
        collapseRuns isAlnumChar false ((s.data.drop dodPfx.data.length).map lowerChar)
          = collapseRuns isCatAlnum false
            ((s.data.drop dodPfx.data.length).map lowerChar) := by
      refine collapseRuns_congr isAlnumChar isCatAlnum _ ?_ false
      intro c hc
      rcases List.mem_map.mp hc with ⟨d, _, rfl⟩
      exact alnum_agree_on_lower d
    rw [hcls]
    have e1 : w1.map lowerChar = w1 :=
      map_id_of_fix w1 (fun c hc => (ws_char_facts c (hw1 c hc)).2)
    have e2 : w2.map lowerChar = w2 :=
      map_id_of_fix w2 (fun c hc => (ws_char_facts c (hw2 c hc)).2)
    have hsplit : (s.data.drop dodPfx.data.length).map lowerChar =
        w1 ++ ((trimChars (s.data.drop dodPfx.data.length)).map lowerChar ++ w2) := by
      conv_lhs => rw [hdec]
      rw [List.map_append, List.map_append, e1, e2]
    rw [hsplit]
    rw [collapse_dropFront isCatAlnum w1 _
      (fun c hc => (ws_char_facts c (hw1 c hc)).1)]
    unfold stripUnder
    rw [collapse_dropBack isCatAlnum (by decide) _ w2 false
      (fun c hc => (ws_char_facts c (hw2 c hc)).1)]
  simp only [extractDodCategory, dodCategorySpec]
  rw [hkey]

/-- Claim C9: category derivation: the derived category is the
remainder after the DoD prefix, lower-cased, with maximal runs of
non-alphanumeric characters collapsed to single underscores and
leading/trailing underscores stripped, defaulting to general when
empty; in particular the two examples of the specification. -/
theorem dod_category_spec_eq :
    (∀ s : String, strStarts s dodPfx = true →
      extractDodCategory s = dodCategorySpec s)
  ∧ extractDodCategory ("DoD - Threat Modelling Done!") = "threat_modelling_done"
  ∧ extractDodCategory ("DoD - ") = "general" := by
  refine ⟨fun s _ => dod_category_core_eq s, by decide, by decide⟩

/-- Claim C9 witness: the refinement equality evaluated on a concrete
DoD summary. -/
theorem dod_category_spec_eq_w :
    extractDodCategory ("DoD - Code Review") = dodCategorySpec ("DoD - Code Review")
      ∧ extractDodCategory ("DoD - Code Review") = "code_review" := by
  refine ⟨dod_category_spec_eq.1 ("DoD - Code Review") (by decide), by decide⟩

/-- Claim C8 witness: two teams with different compliance give rank 1
to the first row after the sort. -/
theorem team_ranking_w :
    ((buildTeamMetrics
      [(["squad_a"],
        { isCompliant := true, reasons := [], failingTasks := [], scopedTasks := [] }),
       (["squad_b"],
        { isCompliant := false, reasons := ["incomplete_dod_tasks"],
          failingTasks := [], scopedTasks := [] })]).get ⟨0, by decide⟩).1 = 1 :=
  (team_ranking _).2.1 0 (by decide)

theorem createTaskRow_ok {db : DB} {epicRowId : Nat} {baseUrl : String}
    {i : Issue} {linkUrl : Option String} {rr : TaskRow × DB}
    (h : createTaskRow db epicRowId baseUrl i linkUrl = Except.ok rr) :
    rr.2.sprintRows = db.sprintRows ∧ db.nextId ≤ rr.2.nextId := by
  unfold createTaskRow at h
  by_cases hd : db.taskRows.any
      (fun t => t.epicSnapshotId == epicRowId && t.jiraIssueId == i.iid) = true
  · rw [if_pos hd] at h
    cases h
  · rw [if_neg hd] at h
    injection h with h2
    rw [← h2]
    exact ⟨rfl, Nat.le_succ _⟩

theorem createEpicRow_ok {db : DB} {sprintRowId : Nat} {baseUrl : String}
    {i : Issue} {missing : Bool} {warns : List String} {rr : EpicRow × DB}
    (h : createEpicRow db sprintRowId baseUrl i missing warns = Except.ok rr) :
    rr.2.sprintRows = db.sprintRows ∧ db.nextId ≤ rr.2.nextId := by
  unfold createEpicRow at h
  by_cases hd : db.epicRows.any
      (fun e => e.sprintSnapshotId == sprintRowId && e.jiraIssueId == i.iid) = true
  · rw [if_pos hd] at h
    cases h
  · rw [if_neg hd] at h
    injection h with h2
    rw [← h2]
    exact ⟨rfl, Nat.le_succ _⟩

theorem addTeamLink_pres (db : DB) (epicRowId : Nat) (k : String) :
    (addTeamLink db epicRowId k).sprintRows = db.sprintRows ∧
    (addTeamLink db epicRowId k).nextId = db.nextId := by
  unfold addTeamLink ensureTeam
  by_cases h1 : db.teamRows.contains k = true
  · rw [if_pos h1]
    by_cases h2 : db.teamLinks.contains (epicRowId, k) = true
    · rw [if_pos h2]
      exact ⟨rfl, rfl⟩
    · rw [if_neg h2]
      exact ⟨rfl, rfl⟩
  · rw [if_neg h1]
    by_cases h2 : ({ db with teamRows := db.teamRows ++ [k] } : DB).teamLinks.contains
        (epicRowId, k) = true
    · rw [if_pos h2]
      exact ⟨rfl, rfl⟩
    · rw [if_neg h2]
      exact ⟨rfl, rfl⟩

theorem teamLinkFold_pres (epicRowId : Nat) :
    ∀ (ks : List String) (db : DB),
      ((ks.foldl (fun d k => addTeamLink d epicRowId k) db).sprintRows
        = db.sprintRows)
      ∧ (ks.foldl (fun d k => addTeamLink d epicRowId k) db).nextId = db.nextId := by
  intro ks
  induction ks with
  | nil => intro db; exact ⟨rfl, rfl⟩
  | cons k rest ih =>
    intro db
    rw [List.foldl_cons]
    rcases ih (addTeamLink db epicRowId k) with ⟨h1, h2⟩
    rcases addTeamLink_pres db epicRowId k with ⟨h3, h4⟩
    exact ⟨h1.trans h3, h2.trans h4⟩

theorem syncDodTasksGo_pres (a : Adapter) (epicRowId : Nat) :
    ∀ (linked : List Issue) (n : Nat) (db : DB) (r : Nat × DB),
      syncDodTasksGo a epicRowId linked n db = Except.ok r →
      r.2.sprintRows = db.sprintRows ∧ db.nextId ≤ r.2.nextId := by
  intro linked
  induction linked with
  | nil =>
    intro n db r h
    injection h with h2
    rw [← h2]
    exact ⟨rfl, Nat.le_refl _⟩
  | cons i rest ih =>
    intro n db r h
    unfold syncDodTasksGo at h
    by_cases hdod : isDodTask i = true
    · rw [if_pos hdod] at h
      split at h
      next e heq => exact Except.noConfusion h
      next links heq =>
        split at h
        next e2 heq2 => exact Except.noConfusion h
        next rr heq2 =>
          rcases ih (n + 1) rr.2 r h with ⟨h1, h2⟩
          rcases createTaskRow_ok heq2 with ⟨h3, h4⟩
          exact ⟨h1.trans h3, Nat.le_trans h4 h2⟩
    · rw [if_neg hdod] at h
      exact ih n db r h

theorem syncOneEpic_pres (a : Adapter) (sprintRowId : Nat)
    (byKey : List (String × Issue)) (ek : String) (linked : List Issue)
    (db : DB) (r : Nat × DB) (h : syncOneEpic a sprintRowId byKey ek linked db = Except.ok r) :
    r.2.sprintRows = db.sprintRows ∧ db.nextId ≤ r.2.nextId := by
  unfold syncOneEpic at h
  split at h
  next e heq => exact Except.noConfusion h
  next epicIssue heq =>
    dsimp only at h
    split at h
    next e2 heq2 => exact Except.noConfusion h
    next er heq2 =>
      rcases syncDodTasksGo_pres a er.1.id linked 0 _ r h with ⟨h1, h2⟩
      rcases teamLinkFold_pres er.1.id (extractTeamMetadata (epicIssue :: linked)).1
        er.2 with ⟨h3, h4⟩
      rcases createEpicRow_ok heq2 with ⟨h5, h6⟩
      refine ⟨(h1.trans h3).trans h5, ?_⟩
      rw [← h4] at h6
      exact Nat.le_trans h6 h2

theorem syncEpicsGo_pres (a : Adapter) (sprintRowId : Nat)
    (byKey : List (String × Issue)) :
    ∀ (groups : List (String × List Issue)) (ce ct : Nat) (db : DB)
      (r : (Nat × Nat) × DB),
      syncEpicsGo a sprintRowId byKey groups ce ct db = Except.ok r →
      r.2.sprintRows = db.sprintRows ∧ db.nextId ≤ r.2.nextId := by
  intro groups
  induction groups with
  | nil =>
    intro ce ct db r h
    injection h with h2
    rw [← h2]
    exact ⟨rfl, Nat.le_refl _⟩
  | cons p rest ih =>
    intro ce ct db r h
    unfold syncEpicsGo at h
    split at h
    next e heq => exact Except.noConfusion h
    next rr heq =>
      rcases ih (ce + 1) (ct + rr.1) rr.2 r h with ⟨h1, h2⟩
      rcases syncOneEpic_pres a sprintRowId byKey p.1 p.2 db rr heq with ⟨h3, h4⟩
      exact ⟨h1.trans h3, Nat.le_trans h4 h2⟩

theorem commitSprint_ok {a : Adapter} {now : Int} {sp : NSprint}
    {inSprint : List Issue} {byKey : List (String × Issue)}
    {fp : List (String × String)} {db : DB} {r : (Nat × Nat × Nat) × DB}
    (h : commitSprint a now sp inSprint byKey fp db = Except.ok r) :
    r.2.sprintRows = db.sprintRows ++
      [{ id := db.nextId, jiraSprintId := sp.id, sprintName := sp.name,
         sprintState := sp.state, syncTs := now, issueVersions := fp }] ∧
    db.nextId < r.2.nextId := by
  unfold commitSprint createSprintRow at h
  dsimp only at h
  split at h
  next e heq => exact Except.noConfusion h
  next rr heq =>
    injection h with h2
    rw [← h2]
    rcases syncEpicsGo_pres a db.nextId byKey (buildEpicMap inSprint) 0 0 _ rr heq
      with ⟨h3, h4⟩
    exact ⟨h3, Nat.lt_of_lt_of_le (Nat.lt_succ_self _) h4⟩

theorem runSprint_ok_cases {a : Adapter} {now : Int} {issues : List Issue}
    {sp : NSprint} {db : DB} {c : Nat × Nat × Nat} {db2 : DB}
    (h : runSprint a now issues sp db = Except.ok (c, db2)) :
    (db2 = db ∧ c = (0, 0, 0)) ∨
    (∃ inSprint byKey,
      sprintCandidate a issues sp.id = Except.ok (some (inSprint, byKey)) ∧
      shouldSkipSprint db sp.id
        (buildIssueVersions (byKey.map (fun p => p.2))) = false ∧
      commitSprint a now sp inSprint byKey
        (buildIssueVersions (byKey.map (fun p => p.2))) db = Except.ok (c, db2)) := by
  unfold runSprint at h
  split at h
  next e heq => exact Except.noConfusion h
  next heq =>
    injection h with h2
    injection h2 with hc hdb
    left
    exact ⟨hdb.symm, hc.symm⟩
  next inS bk heq =>
    dsimp only at h
    by_cases hskip : shouldSkipSprint db sp.id
        (buildIssueVersions (bk.map (fun p => p.2))) = true
    · rw [if_pos hskip] at h
      injection h with h2
      injection h2 with hc hdb
      left
      exact ⟨hdb.symm, hc.symm⟩
    · rw [if_neg hskip] at h
      right
      exact ⟨inS, bk, heq, Bool.not_eq_true _ ▸ eq_false_of_ne_true hskip, h⟩

theorem runSprint_skip (a : Adapter) (now : Int) (issues : List Issue)
    (sp : NSprint) (db : DB) :
    (sprintCandidate a issues sp.id = Except.ok none →
      runSprint a now issues sp db = Except.ok ((0, 0, 0), db))
  ∧ (∀ inS bk, sprintCandidate a issues sp.id = Except.ok (some (inS, bk)) →
      shouldSkipSprint db sp.id
        (buildIssueVersions (bk.map (fun p => p.2))) = true →
      runSprint a now issues sp db = Except.ok ((0, 0, 0), db)) := by
  constructor
  · intro h
    unfold runSprint
    rw [h]
  · intro inS bk h hskip
    unfold runSprint
    rw [h]
    dsimp only
    rw [if_pos hskip]

theorem runSprint_rows {a : Adapter} {now : Int} {issues : List Issue}
    {sp : NSprint} {db : DB} {c : Nat × Nat × Nat} {db2 : DB}
    (h : runSprint a now issues sp db = Except.ok (c, db2)) :
    ∃ new, db2.sprintRows = db.sprintRows ++ new ∧
      (∀ r ∈ new, r.jiraSprintId = sp.id ∧ r.syncTs = now ∧ db.nextId ≤ r.id) ∧
      db.nextId ≤ db2.nextId := by
  rcases runSprint_ok_cases h with ⟨rfl, _⟩ | ⟨inS, bk, hc, hskip, hcommit⟩
  · exact ⟨[], by simp, by simp, Nat.le_refl _⟩
  · rcases commitSprint_ok hcommit with ⟨hrows, hlt⟩
    refine ⟨[(⟨db.nextId, sp.id, sp.name, sp.state, now,
        buildIssueVersions (bk.map (fun p => p.2))⟩ : SprintRow)],
      hrows, ?_, Nat.le_of_lt hlt⟩
    intro r hr
    rcases List.mem_singleton.mp hr with rfl
    exact ⟨rfl, rfl, Nat.le_refl _⟩

theorem commitPrefix_rows (a : Adapter) (now : Int) (issues : List Issue) :
    ∀ (pre : List NSprint) (db dbMid : DB),
      commitPrefix a now issues pre db = some dbMid →
      ∃ new, dbMid.sprintRows = db.sprintRows ++ new ∧
        (∀ r ∈ new, r.jiraSprintId ∈ pre.map (fun q => q.id) ∧ r.syncTs = now ∧
          db.nextId ≤ r.id) ∧
        db.nextId ≤ dbMid.nextId := by
  intro pre
  induction pre with
  | nil =>
    intro db dbMid h
    injection h with h2
    rw [← h2]
    exact ⟨[], by simp, by simp, Nat.le_refl _⟩
  | cons sp rest ih =>
    intro db dbMid h
    unfold commitPrefix at h
    split at h
    next cd heq =>
      rcases runSprint_rows heq with ⟨new1, hrows1, hprops1, hnext1⟩
      rcases ih cd dbMid h with ⟨new2, hrows2, hprops2, hnext2⟩
      refine ⟨new1 ++ new2, ?_, ?_, Nat.le_trans hnext1 hnext2⟩
      · rw [hrows2, hrows1, List.append_assoc]
      · intro r hr
        rcases List.mem_append.mp hr with hr1 | hr2
        · rcases hprops1 r hr1 with ⟨hid, hts, hle⟩
          exact ⟨by rw [List.map_cons, hid]; exact List.mem_cons_self _ _, hts, hle⟩
        · rcases hprops2 r hr2 with ⟨hid, hts, hle⟩
          exact ⟨by rw [List.map_cons]; exact List.mem_cons_of_mem _ hid, hts,
            Nat.le_trans hnext1 hle⟩
    next heq => exact Option.noConfusion h

theorem syncLoop_prefix_fail (a : Adapter) (now : Int) (issues : List Issue)
    (sp : NSprint) (post : List NSprint) (err : SyncErr) :
    ∀ (pre : List NSprint) (db dbMid : DB) (s e t : Nat),
      commitPrefix a now issues pre db = some dbMid →
      runSprint a now issues sp dbMid = Except.error err →
      syncLoop a now issues (pre ++ sp :: post) db s e t = (Except.error err, dbMid) := by
  intro pre
  induction pre with
  | nil =>
    intro db dbMid s e t hpre hfail
    injection hpre with h2
    rw [← h2] at hfail ⊢
    rw [List.nil_append]
    unfold syncLoop
    rw [hfail]
  | cons q rest ih =>
    intro db dbMid s e t hpre hfail
    unfold commitPrefix at hpre
    split at hpre
    next cd heq =>
      rw [List.cons_append]
      unfold syncLoop
      rw [heq]
      exact ih cd dbMid _ _ _ hpre hfail
    next heq => exact Option.noConfusion hpre

theorem extractSprintsAux_spec :
    ∀ (l : List NSprint) (seen : List String),
      ((extractSprintsAux l seen).map (fun sp => sp.id)).Nodup ∧
      ∀ sp ∈ extractSprintsAux l seen, sp.id ≠ "" ∧ sp.id ∉ seen := by
  intro l
  induction l with
  | nil =>
    intro seen
    exact ⟨List.nodup_nil, fun sp h => absurd h (List.not_mem_nil sp)⟩
  | cons sp rest ih =>
    intro seen
    unfold extractSprintsAux
    by_cases hc : sp.id ≠ "" ∧ sp.id ∉ seen
    · rw [if_pos hc]
      rcases ih (sp.id :: seen) with ⟨hnd, hmem⟩
      constructor
      · rw [List.map_cons]
        refine List.nodup_cons.mpr ⟨?_, hnd⟩
        intro hm
        rcases List.mem_map.mp hm with ⟨q, hq, hqid⟩
        exact (hmem q hq).2 (hqid ▸ List.mem_cons_self _ _)
      · intro q hq
        rcases List.mem_cons.mp hq with rfl | hq2
        · exact hc
        · have h3 := hmem q hq2
          exact ⟨h3.1, fun hm => h3.2 (List.mem_cons_of_mem _ hm)⟩
    · rw [if_neg hc]
      exact ih seen

theorem extractSprints_nodup (issues : List Issue) :
    ((extractSprints issues).map (fun sp => sp.id)).Nodup :=
  (extractSprintsAux_spec ((issues.map issueSprints).flatten) []).1

/-- Claim C1: per-sprint snapshot persistence is atomic: when the
sprints before the failing one commit and the failing sprint's
iteration raises, the whole invocation returns that error with the
database exactly in the state left by the earlier commits — every row
added relative to the initial state belongs to an earlier sprint of
the invocation, never to the failing sprint, and the failing sprint's
id differs from every earlier sprint's id. -/
theorem sync_per_sprint_atomicity (a : Adapter) (now : Int) (db dbMid : DB)
    (pre post : List NSprint) (sp : NSprint) (err : SyncErr)
    (hs : extractSprints a.searchResult = pre ++ sp :: post)
    (hpre : commitPrefix a now a.searchResult pre db = some dbMid)
    (hfail : runSprint a now a.searchResult sp dbMid = Except.error err) :
    syncActiveSprint a now db = (Except.error err, dbMid)
  ∧ (∃ new, dbMid.sprintRows = db.sprintRows ++ new ∧
      ∀ r ∈ new, r.jiraSprintId ∈ pre.map (fun q => q.id))
  ∧ sp.id ∉ pre.map (fun q => q.id) := by
  have hne : a.searchResult.isEmpty = false := by
    rw [List.isEmpty_eq_false]
    intro h0
    rw [h0] at hs
    have h1 : ([] : List NSprint) = pre ++ sp :: post := hs
    exact (List.cons_ne_nil sp post) (List.append_eq_nil.mp h1.symm).2
  refine ⟨?_, ?_, ?_⟩
  · unfold syncActiveSprint
    rw [hne]
    simp only [Bool.false_eq_true, if_neg, not_false_iff]
    rw [hs]
    exact syncLoop_prefix_fail a now a.searchResult sp post err pre db dbMid 0 0 0
      hpre hfail
  · rcases commitPrefix_rows a now a.searchResult pre db dbMid hpre with
      ⟨new, hrows, hprops, _⟩
    exact ⟨new, hrows, fun r hr => (hprops r hr).1⟩
  · have hnd := extractSprints_nodup a.searchResult
    rw [hs, List.map_append, List.map_cons] at hnd
    rcases List.nodup_append.mp hnd with ⟨_, _, hdisj⟩
    intro hmem
    exact hdisj hmem (List.mem_cons_self _ _)

/-- Claim C1 witness: a batch with two epics sharing one external issue
id violates the epic unique constraint inside the transaction; the
invocation aborts with the integrity error and the empty database is
unchanged. -/
theorem sync_per_sprint_atomicity_w :
    syncActiveSprint adapterDup 50 DB.empty =
      (Except.error (SyncErr.integrityErr ("uniq_epic_snapshot_per_sprint_issue")),
        DB.empty) :=
  (sync_per_sprint_atomicity adapterDup 50 DB.empty DB.empty [] []
    { id := "1", name := "Sprint 1", state := "active" }
    (SyncErr.integrityErr ("uniq_epic_snapshot_per_sprint_issue"))
    (by decide) (by decide) (by decide)).1

theorem runSprint_cases3 {a : Adapter} {now : Int} {issues : List Issue}
    {sp : NSprint} {db : DB} {c : Nat × Nat × Nat} {db2 : DB}
    (h : runSprint a now issues sp db = Except.ok (c, db2)) :
    (sprintCandidate a issues sp.id = Except.ok none ∧ db2 = db) ∨
    (∃ inS bk, sprintCandidate a issues sp.id = Except.ok (some (inS, bk)) ∧
      shouldSkipSprint db sp.id
        (buildIssueVersions (bk.map (fun p => p.2))) = true ∧ db2 = db) ∨
    (∃ inS bk, sprintCandidate a issues sp.id = Except.ok (some (inS, bk)) ∧
      shouldSkipSprint db sp.id
        (buildIssueVersions (bk.map (fun p => p.2))) = false ∧
      commitSprint a now sp inS bk
        (buildIssueVersions (bk.map (fun p => p.2))) db = Except.ok (c, db2)) := by
  unfold runSprint at h
  split at h
  next e heq => exact Except.noConfusion h
  next heq =>
    injection h with h2
    injection h2 with hc hdb
    exact Or.inl ⟨heq, hdb.symm⟩
  next inS bk heq =>
    dsimp only at h
    by_cases hskip : shouldSkipSprint db sp.id
        (buildIssueVersions (bk.map (fun p => p.2))) = true
    · rw [if_pos hskip] at h
      injection h with h2
      injection h2 with hc hdb
      exact Or.inr (Or.inl ⟨inS, bk, heq, hskip, hdb.symm⟩)
    · rw [if_neg hskip] at h
      exact Or.inr (Or.inr ⟨inS, bk, heq,
        Bool.not_eq_true _ ▸ eq_false_of_ne_true hskip, h⟩)

theorem syncLoop_ok_commitPrefix (a : Adapter) (now : Int) (issues : List Issue) :
    ∀ (sps : List NSprint) (db : DB) (s e t : Nat) (sum : SyncSummary) (dbEnd : DB),
      syncLoop a now issues sps db s e t = (Except.ok sum, dbEnd) →
      commitPrefix a now issues sps db = some dbEnd := by
  intro sps
  induction sps with
  | nil =>
    intro db s e t sum dbEnd h
    injection h with h1 h2
    rw [h2]
    rfl
  | cons sp rest ih =>
    intro db s e t sum dbEnd h
    unfold syncLoop at h
    unfold commitPrefix
    split at h
    next err heq =>
      injection h with h1 h2
      exact Except.noConfusion h1
    next cc dd heq =>
      rw [heq]
      exact ih dd _ _ _ sum dbEnd h

theorem latestSnapshotFor_append_other {rows new : List SprintRow} {sid : String}
    (h : ∀ r ∈ new, r.jiraSprintId ≠ sid) :
    latestSnapshotFor (rows ++ new) sid = latestSnapshotFor rows sid := by
  unfold latestSnapshotFor
  rw [List.filter_append]
  have h2 : new.filter (fun r => r.jiraSprintId == sid) = [] := by
    rw [List.filter_eq_nil_iff]
    intro r hr
    simp [h r hr]
  rw [h2, List.append_nil]

theorem latestFold_mem :
    ∀ (l : List SprintRow) (acc : Option SprintRow),
      l.foldl snapPick acc = acc ∨ ∃ r ∈ l, l.foldl snapPick acc = some r := by
  intro l
  induction l with
  | nil => intro acc; exact Or.inl rfl
  | cons r rest ih =>
    intro acc
    rw [List.foldl_cons]
    rcases ih (snapPick acc r) with h | ⟨q, hq, hfold⟩
    · rw [h]
      cases acc with
      | none => exact Or.inr ⟨r, List.mem_cons_self r rest, rfl⟩
      | some b =>
        simp only [snapPick]
        by_cases hcmp : r.syncTs > b.syncTs ∨ (r.syncTs = b.syncTs ∧ r.id > b.id)
        · rw [if_pos hcmp]
          exact Or.inr ⟨r, List.mem_cons_self r rest, rfl⟩
        · rw [if_neg hcmp]
          exact Or.inl rfl
    · exact Or.inr ⟨q, List.mem_cons_of_mem r hq, hfold⟩

theorem latest_append_last {rows : List SprintRow} {R : SprintRow}
    (h : ∀ r ∈ rows, r.jiraSprintId = R.jiraSprintId →
      r.syncTs < R.syncTs ∨ (r.syncTs = R.syncTs ∧ r.id < R.id)) :
    latestSnapshotFor (rows ++ [R]) R.jiraSprintId = some R := by
  unfold latestSnapshotFor
  rw [List.filter_append]
  have hR : [R].filter (fun r => r.jiraSprintId == R.jiraSprintId) = [R] := by
    simp
  rw [hR, List.foldl_append]
  show snapPick
    ((rows.filter (fun r => r.jiraSprintId == R.jiraSprintId)).foldl snapPick none) R
      = some R
  rcases latestFold_mem (rows.filter (fun r => r.jiraSprintId == R.jiraSprintId)) none
    with hnone | ⟨q, hq, hsome⟩
  · rw [hnone]
    rfl
  · rw [hsome]
    rcases List.mem_filter.mp hq with ⟨hqrows, hqid⟩
    have hlt := h q hqrows (beq_iff_eq.mp hqid)
    simp only [snapPick]
    rw [if_pos (by omega)]

theorem shouldSkip_congr {dbA dbB : DB} {sid : String} {fp : List (String × String)}
    (h : latestSnapshotFor dbA.sprintRows sid = latestSnapshotFor dbB.sprintRows sid) :
    shouldSkipSprint dbA sid fp = shouldSkipSprint dbB sid fp := by
  unfold shouldSkipSprint
  rw [h]

theorem syncLoop_post (a : Adapter) (now1 : Int) (issues : List Issue) :
    ∀ (sps : List NSprint) (db : DB) (s e t : Nat) (sum : SyncSummary) (dbEnd : DB),
      (sps.map (fun q => q.id)).Nodup →
      (∀ r ∈ db.sprintRows, r.syncTs ≤ now1) →
      (∀ r ∈ db.sprintRows, r.id < db.nextId) →
      syncLoop a now1 issues sps db s e t = (Except.ok sum, dbEnd) →
      ∀ sp ∈ sps,
        sprintCandidate a issues sp.id = Except.ok none ∨
        ∃ inS bk, sprintCandidate a issues sp.id = Except.ok (some (inS, bk)) ∧
          shouldSkipSprint dbEnd sp.id
            (buildIssueVersions (bk.map (fun p => p.2))) = true := by
  intro sps
  induction sps with
  | nil => intro db s e t sum dbEnd _ _ _ _ sp hsp; exact absurd hsp (List.not_mem_nil sp)
  | cons sp rest ih =>
    intro db s e t sum dbEnd hnd hclock hfresh hloop
    have hndr : (rest.map (fun q => q.id)).Nodup := by
      rw [List.map_cons] at hnd
      exact (List.nodup_cons.mp hnd).2
    have hspnotin : sp.id ∉ rest.map (fun q => q.id) := by
      rw [List.map_cons] at hnd
      exact (List.nodup_cons.mp hnd).1
    unfold syncLoop at hloop
    split at hloop
    next err heq =>
      injection hloop with h1 h2
      exact Except.noConfusion h1
    next cc dd heq =>
      have hprefix := syncLoop_ok_commitPrefix a now1 issues rest dd _ _ _ sum dbEnd hloop
      rcases commitPrefix_rows a now1 issues rest dd dbEnd hprefix with
        ⟨newTail, hrowsEnd, hpropsTail, _⟩
      have htailne : ∀ r ∈ newTail, r.jiraSprintId ≠ sp.id := by
        intro r hr hid
        exact hspnotin (hid ▸ (hpropsTail r hr).1)
      intro q hq
      rcases List.mem_cons.mp hq with rfl | hq2
      · rcases runSprint_cases3 heq with
          ⟨hcand, hdd⟩ | ⟨inS, bk, hcand, hskip, hdd⟩ | ⟨inS, bk, hcand, hskip, hcommit⟩
        · exact Or.inl hcand
        · right
          refine ⟨inS, bk, hcand, ?_⟩
          have hlat : latestSnapshotFor dbEnd.sprintRows q.id =
              latestSnapshotFor db.sprintRows q.id := by
            rw [hrowsEnd, hdd]
            exact latestSnapshotFor_append_other htailne
          rw [← hskip]
          exact shouldSkip_congr hlat
        · right
          refine ⟨inS, bk, hcand, ?_⟩
          rcases commitSprint_ok hcommit with ⟨hrows2, _⟩
          have hlast := @latest_append_last db.sprintRows
            ⟨db.nextId, q.id, q.name, q.state, now1,
              buildIssueVersions (bk.map (fun p => p.2))⟩
            (by
              intro r hr _
              rcases lt_or_eq_of_le (hclock r hr) with hlt | heq2
              · exact Or.inl hlt
              · exact Or.inr ⟨heq2, hfresh r hr⟩)
          have hlat : latestSnapshotFor dbEnd.sprintRows q.id = some
              ⟨db.nextId, q.id, q.name, q.state, now1,
                buildIssueVersions (bk.map (fun p => p.2))⟩ := by
            rw [hrowsEnd, hrows2]
            rw [latestSnapshotFor_append_other htailne]
            exact hlast
          unfold shouldSkipSprint
          rw [hlat]
          simp
      · have hinv2 : (∀ r ∈ dd.sprintRows, r.syncTs ≤ now1) ∧
            (∀ r ∈ dd.sprintRows, r.id < dd.nextId) := by
          rcases runSprint_cases3 heq with
            ⟨_, hdd⟩ | ⟨inS, bk, _, _, hdd⟩ | ⟨inS, bk, _, _, hcommit⟩
          · rw [hdd]
            exact ⟨hclock, hfresh⟩
          · rw [hdd]
            exact ⟨hclock, hfresh⟩
          · rcases commitSprint_ok hcommit with ⟨hrows2, hlt⟩
            constructor
            · intro r hr
              rw [hrows2] at hr
              rcases List.mem_append.mp hr with hr1 | hr2
              · exact hclock r hr1
              · rcases List.mem_singleton.mp hr2 with rfl
                exact le_refl now1
            · intro r hr
              rw [hrows2] at hr
              rcases List.mem_append.mp hr with hr1 | hr2
              · exact Nat.lt_trans (hfresh r hr1) hlt
              · rcases List.mem_singleton.mp hr2 with rfl
                exact hlt
        exact ih dd _ _ _ sum dbEnd hndr hinv2.1 hinv2.2 hloop q hq2

theorem syncLoop_all_skip (a : Adapter) (now2 : Int) (issues : List Issue) :
    ∀ (sps : List NSprint) (db : DB) (s e t : Nat),
      (∀ sp ∈ sps,
        sprintCandidate a issues sp.id = Except.ok none ∨
        ∃ inS bk, sprintCandidate a issues sp.id = Except.ok (some (inS, bk)) ∧
          shouldSkipSprint db sp.id
            (buildIssueVersions (bk.map (fun p => p.2))) = true) →
      syncLoop a now2 issues sps db s e t = (Except.ok ⟨s, e, t⟩, db) := by
  intro sps
  induction sps with
  | nil => intro db s e t _; rfl
  | cons sp rest ih =>
    intro db s e t hall
    have hsp := hall sp (List.mem_cons_self sp rest)
    have hrs : runSprint a now2 issues sp db = Except.ok ((0, 0, 0), db) := by
      rcases hsp with hc | ⟨inS, bk, hc, hskip⟩
      · exact (runSprint_skip a now2 issues sp db).1 hc
      · exact (runSprint_skip a now2 issues sp db).2 inS bk hc hskip
    unfold syncLoop
    rw [hrs]
    have h2 := ih db (s + 0) (e + 0) (t + 0)
      (fun q hq => hall q (List.mem_cons_of_mem sp hq))
    simpa using h2

/-- Claim C2: sync is idempotent under unchanged input: when the
candidate fingerprint equals the stored fingerprint of the most recent
snapshot for a sprint id, the sprint is skipped with no rows created
and a zero contribution to the summary; consequently a second sync
invocation over the same adapter state, run after a first successful
invocation whose timestamp is not before every stored timestamp,
creates no rows at all: it returns the zero summary and leaves the
database exactly as the first invocation left it. -/
theorem sync_idempotent (a : Adapter) (db0 db1 : DB) (now1 now2 : Int)
    (s1 : SyncSummary)
    (hclock : ∀ r ∈ db0.sprintRows, r.syncTs ≤ now1)
    (hfresh : ∀ r ∈ db0.sprintRows, r.id < db0.nextId)
    (h1 : syncActiveSprint a now1 db0 = (Except.ok s1, db1)) :
    (∀ (sp : NSprint) (inS : List Issue) (bk : List (String × Issue)) (db : DB),
      sprintCandidate a a.searchResult sp.id = Except.ok (some (inS, bk)) →
      shouldSkipSprint db sp.id
        (buildIssueVersions (bk.map (fun p => p.2))) = true →
      runSprint a now2 a.searchResult sp db = Except.ok ((0, 0, 0), db))
  ∧ syncActiveSprint a now2 db1 = (Except.ok ⟨0, 0, 0⟩, db1) := by
  constructor
  · intro sp inS bk db hcand hskip
    exact (runSprint_skip a now2 a.searchResult sp db).2 inS bk hcand hskip
  · by_cases hemp : a.searchResult.isEmpty = true
    · unfold syncActiveSprint at h1 ⊢
      rw [if_pos hemp] at h1 ⊢
    · unfold syncActiveSprint at h1 ⊢
      rw [if_neg hemp] at h1 ⊢
      have hpost := syncLoop_post a now1 a.searchResult (extractSprints a.searchResult)
        db0 0 0 0 s1 db1 (extractSprints_nodup a.searchResult) hclock hfresh h1
      exact syncLoop_all_skip a now2 a.searchResult (extractSprints a.searchResult)
        db1 0 0 0 hpost

/-- Claim C2 witness: a concrete two-issue batch synced into an empty
database; the second invocation returns the zero summary and leaves
the database untouched. -/
theorem sync_idempotent_w :
    syncActiveSprint adapterFix 200 (syncActiveSprint adapterFix 100 DB.empty).2 =
      (Except.ok ⟨0, 0, 0⟩, (syncActiveSprint adapterFix 100 DB.empty).2) :=
  (sync_idempotent adapterFix DB.empty (syncActiveSprint adapterFix 100 DB.empty).2
    100 200 ⟨1, 1, 1⟩
    (fun r hr => absurd hr (List.not_mem_nil r))
    (fun r hr => absurd hr (List.not_mem_nil r))
    (by decide)).2
